import Mathlib

/-!
# github-personal-stats: the statistics client (`pkg/github/client.go`)

A shallow embedding of the Go package `github` of this repository and of the part of
the Go standard library (`time`, `fmt`) and of `go-github` that it calls.

* Go pointers (`*T`) are `Option T`; a nil dereference is the outcome `panicked`.
* The remote (`c.client`) is a deterministic stub: the response depends only on the request.
* Loops without a bound (`for { ... }`) take a fuel argument; the outcome `running` says the
  fuel ran out before the loop finished.
* `time.Time` is an instant (seconds since January 1, year 1, 00:00:00 UTC, and nanoseconds)
  with a location; a location is its `lookup`, any map from Unix times to zones. Calendar
  arithmetic is over unbounded integers.
* Go's `int` is 64 bits wide: the line totals wrap as `int64` does. Page numbers and hit counts
  are far from that bound and are unbounded here.
-/

namespace GoTime

/-! ## Package `time` -/

/-- Leap years of the proleptic Gregorian calendar (`time.isLeap`). -/
def isLeap (year : Int) : Bool :=
  year % 4 == 0 && (year % 100 != 0 || year % 400 == 0)

/-- Days of a non-leap year before month `m + 1` (`time.daysBefore`). -/
def daysBefore : Nat → Int
  | 0 => 0
  | 1 => 31
  | 2 => 59
  | 3 => 90
  | 4 => 120
  | 5 => 151
  | 6 => 181
  | 7 => 212
  | 8 => 243
  | 9 => 273
  | 10 => 304
  | 11 => 334
  | _ => 365

/-- Carry of `lo` into `hi` so that `0 ≤ lo < base` (`time.norm`). -/
def norm (hi lo base : Int) : Int × Int :=
  let p : Int × Int :=
    if lo < 0 then
      let n := (-lo - 1) / base + 1
      (hi - n, lo + n * base)
    else (hi, lo)
  if p.2 ≥ base then
    let n := p.2 / base
    (p.1 + n, p.2 - n * base)
  else p

/-- Days from January 1 of year 1 to January 1 of `year` (`time.daysSinceEpoch`, counted
from year 1, the epoch of `Time`'s seconds): 400-year, 100-year and 4-year cycles, then
single years. -/
def daysSinceEpoch (year : Int) : Int :=
  let y := year - 1
  let n400 := y / 400
  let y1 := y - 400 * n400
  let n100 := y1 / 100
  let y2 := y1 - 100 * n100
  let n4 := y2 / 4
  let y3 := y2 - 4 * n4
  146097 * n400 + 36524 * n100 + 1461 * n4 + 365 * y3

/-- Year and day within the year (from 0) of a day count since January 1 of year 1: the
first half of `time.absDate`. -/
def yearDay (days : Int) : Int × Int :=
  -- 400-year cycles
  let n400 := days / 146097
  let d1 := days - 146097 * n400
  -- 100-year cycles: the last one has an extra leap day
  let n100 := d1 / 36524
  let n100 := n100 - n100 / 4
  let d2 := d1 - 36524 * n100
  -- 4-year cycles
  let n4 := d2 / 1461
  let d3 := d2 - 1461 * n4
  -- years within a 4-year cycle: the last one is a leap year
  let n1 := d3 / 365
  let n1 := n1 - n1 / 4
  (400 * n400 + 100 * n100 + 4 * n4 + n1 + 1, d3 - 365 * n1)

/-- Month and day of month of a day within a year: the second half of `time.absDate`. -/
def monthDay (leap : Bool) (yday : Int) : Int × Int :=
  if leap && yday == 59 then (2, 29)
  else
    -- after the leap day, pretend it was not there
    let day := if leap && yday > 59 then yday - 1 else yday
    -- estimate the month on the assumption that every month has 31 days
    let month := day / 31
    let fin := daysBefore (month + 1).toNat
    if day ≥ fin then (month + 2, day - fin + 1)
    else (month + 1, day - daysBefore month.toNat + 1)

/-- Year, month and day of month of a day count since January 1 of year 1
(`time.absDate`). -/
def absDate (days : Int) : Int × Int × Int :=
  let yd := yearDay days
  (yd.1, monthDay (isLeap yd.1) yd.2)

/-- What `Location.lookup` reports of the zone in use at an instant: its offset east of UTC,
in seconds, and the Unix times at which that zone takes effect and ceases to (the name and the
daylight-saving flag are not read by the code modelled here). -/
structure Zone where
  offset : Int
  start : Int
  fin : Int
  deriving DecidableEq, Repr

/-- A location (`time.Location`), given by its method `lookup`, which maps a Unix time to the
zone in use at that time. -/
structure Location where
  lookup : Int → Zone

/-- The location `time.UTC`: offset 0 at all times. -/
def UTC : Location :=
  { lookup := fun _ => { offset := 0, start := -9223372036854775808, fin := 9223372036854775807 } }

/-- Seconds from January 1, year 1 to January 1, 1970 (`unixToInternal`). -/
def unixToInternal : Int := 62135596800

/-- An instant with a location (`time.Time`). `sec` counts seconds since January 1, year 1,
00:00:00 UTC. -/
structure Time where
  sec : Int
  nsec : Fin 1000000000
  loc : Location

/-- Seconds since January 1, 1970 UTC (`Time.unixSec`). -/
def Time.unixSec (t : Time) : Int := t.sec - unixToInternal

/-- Seconds since January 1, year 1, 00:00:00 on the clock of the time's own location
(`Time.abs`): the zone offset at the instant is added. -/
def Time.abs (t : Time) : Int := t.sec + (t.loc.lookup t.unixSec).offset

/-- Year, month and day in which the instant falls (`Time.Date`). -/
def Time.date (t : Time) : Int × Int × Int := absDate (t.abs / 86400)

/-- Hour, minute and second within the day (`Time.Clock`). -/
def Time.clock (t : Time) : Int × Int × Int :=
  let s := t.abs % 86400
  (s / 3600, s % 3600 / 60, s % 60)

/-- The zone offset `time.Date` settles on for a clock reading `unix` (seconds since 1970 on
the location's clock): the zone in use at `unix` taken as a UTC time, unless the reading less
that zone's offset falls outside the zone, in which case the zone in use at that time. -/
def Location.offsetFor (l : Location) (unix : Int) : Int :=
  let z := l.lookup unix
  if z.offset ≠ 0 then
    let utc := unix - z.offset
    if utc < z.start ∨ utc ≥ z.fin then (l.lookup utc).offset else z.offset
  else z.offset

/-- The instant of a date and clock reading in the location `loc`; values outside their usual
ranges are normalised (`time.Date`). -/
def Date (year month day hour min sec nsec : Int) (loc : Location) : Time :=
  -- normalise month, overflowing into year
  let ym := norm year (month - 1) 12
  let year := ym.1
  let month := ym.2 + 1
  -- normalise nsec, sec, min, hour, overflowing into day
  let sn := norm sec nsec 1000000000
  let ms := norm min sn.1 60
  let hm := norm hour ms.1 60
  let dh := norm day hm.1 24
  -- days since the epoch, days before this month, days before today
  let d := daysSinceEpoch year + daysBefore (month - 1).toNat
  let d := if isLeap year && month ≥ 3 then d + 1 else d
  let d := d + (dh.1 - 1)
  let abs := d * 86400 + (dh.2 * 3600 + hm.2 * 60 + ms.2)
  -- look for the zone offset of the expected time, to adjust to UTC
  let unix := abs - unixToInternal
  let unix := unix - loc.offsetFor unix
  { sec := unix + unixToInternal, nsec := Fin.ofNat sn.2.toNat, loc := loc }

/-- The date `years`, `months` and `days` later, normalised as `Date` does (`Time.AddDate`). -/
def Time.AddDate (t : Time) (years months days : Int) : Time :=
  let ymd := t.date
  let hms := t.clock
  Date (ymd.1 + years) (ymd.2.1 + months) (ymd.2.2 + days) hms.1 hms.2.1 hms.2.2
    t.nsec.val t.loc

/-- Whether `t` is an earlier instant than `u` (`Time.Before`). -/
def Time.Before (t u : Time) : Bool :=
  t.sec < u.sec || (t.sec == u.sec && t.nsec.val < u.nsec.val)

/-- The instant `t` is not after `u`. -/
def Time.le (t u : Time) : Prop := u.Before t = false

instance (t u : Time) : Decidable (t.le u) := by
  unfold Time.le; infer_instance

/-- The offsets of the location differ from one another by at most `d` seconds. -/
def Location.OffsetsWithin (l : Location) (d : Int) : Prop :=
  ∀ s s' : Int, (l.lookup s).offset - (l.lookup s').offset ≤ d

/-- The day count `Date` computes for a year, month and day (month and day may lie outside
their usual ranges). -/
def daysOf (year month day : Int) : Int :=
  let ym := norm year (month - 1) 12
  daysSinceEpoch ym.1 + daysBefore ym.2.toNat
    + (if isLeap ym.1 && decide (ym.2 + 1 ≥ 3) then 1 else 0) + (day - 1)

/-! ## Package `time`: formatting -/

/-- Decimal digits of `u`, assembled from the least significant one; `fuel` bounds the number
of digits. -/
def decimalAux : Nat → Nat → List Char → List Char
  | 0, _, acc => acc
  | fuel + 1, u, acc =>
    let acc := Char.ofNat (48 + u % 10) :: acc
    if u / 10 = 0 then acc else decimalAux fuel (u / 10) acc

/-- Decimal digits of `u`. -/
def decimal (u : Nat) : List Char := decimalAux (u + 1) u []

/-- The decimal form of `x` appended to `b`: a minus sign when negative, then the digits
padded with zeros to `width` (`time.appendInt`). -/
def appendInt (b : List Char) (x : Int) (width : Nat) : List Char :=
  let b := if x < 0 then b ++ ['-'] else b
  let ds := decimal x.natAbs
  b ++ List.replicate (width - ds.length) '0' ++ ds

/-- The layout interpreted chunk by chunk (`Time.AppendFormat`). Of the standard chunks only
`2006` (year), `01` (two-digit month) and `02` (two-digit day of month) are recognised; every
other character is copied. -/
def appendFormat (year month day : Int) : List Char → List Char → List Char
  | '2' :: '0' :: '0' :: '6' :: rest, b => appendFormat year month day rest (appendInt b year 4)
  | '0' :: '1' :: rest, b => appendFormat year month day rest (appendInt b month 2)
  | '0' :: '2' :: rest, b => appendFormat year month day rest (appendInt b day 2)
  | c :: rest, b => appendFormat year month day rest (b ++ [c])
  | [], b => b

/-- The textual form of the instant according to `layout` (`Time.Format`). -/
def Time.Format (t : Time) (layout : String) : String :=
  String.mk (appendFormat t.date.1 t.date.2.1 t.date.2.2 layout.data [])

/-- The value of a decimal digit character. -/
def digitVal (c : Char) : Nat := c.toNat - 48

/-- The number a string of decimal digits denotes. -/
def decodeNat (cs : List Char) : Nat := cs.foldl (fun a c => 10 * a + digitVal c) 0

/-- The character of a decimal digit. -/
def digitChar (n : Int) : Char := Char.ofNat (48 + n.toNat)

/-- The date form `YYYY-MM-DD` as the specification words it: the four digits of the year, a
hyphen, the two digits of the month, a hyphen, the two digits of the day. -/
def isoDate (year month day : Int) : String :=
  String.mk
    [digitChar (year / 1000 % 10), digitChar (year / 100 % 10), digitChar (year / 10 % 10),
      digitChar (year % 10), '-', digitChar (month / 10 % 10), digitChar (month % 10), '-',
      digitChar (day / 10 % 10), digitChar (day % 10)]

end GoTime

namespace GoFmt

/-! ## Package `fmt` -/

/-- The format with each `%s` replaced by the next operand (`fmt.Sprintf` for string
operands and the verb `%s`); a verb without an operand prints `%!s(MISSING)`. -/
def sprintfAux : List Char → List String → List Char
  | '%' :: 's' :: rest, a :: args => a.data ++ sprintfAux rest args
  | '%' :: 's' :: rest, [] => "%!s(MISSING)".data ++ sprintfAux rest []
  | c :: rest, args => c :: sprintfAux rest args
  | [], _ => []

/-- The formatted string (`fmt.Sprintf`) when every operand is consumed by the format. -/
def Sprintf (format : String) (args : List String) : String :=
  String.mk (sprintfAux format.data args)

/-- The message of `fmt.Errorf(format, err)`: the format with the verb `%w` replaced by the
message of `err`. -/
def errorfAux (msg : String) : List Char → List Char
  | '%' :: 'w' :: rest => msg.data ++ errorfAux msg rest
  | c :: rest => c :: errorfAux msg rest
  | [] => []

end GoFmt

namespace GithubStats

open GoTime GoFmt

/-! ## go-github: the records and the client's two services -/

/-- The field of `github.Repository` the client reads. -/
structure Repository where
  Name : Option String
  deriving DecidableEq, Repr

/-- The fields of `github.Issue` (a search hit) the client reads. -/
structure Issue where
  Number : Option Int
  Repository : Option Repository
  deriving DecidableEq, Repr

/-- The fields of `github.PullRequest` the client reads. -/
structure PullRequest where
  Additions : Option Int
  Deletions : Option Int
  deriving DecidableEq, Repr

/-- Go's `error` values: what the remote returns, and what `fmt.Errorf("...: %w", err)`
wraps. -/
inductive Error where
  | remote (msg : String)
  | wrapped (msg : String) (err : Error)
  deriving DecidableEq, Repr

/-- The message of an error (the method `Error` of `error`). -/
def Error.message : Error → String
  | .remote msg => msg
  | .wrapped msg _ => msg

/-- The error `fmt.Errorf(format, err)` for a format with the one verb `%w`, which prints as
`%s` does. -/
def Errorf (format : String) (err : Error) : Error :=
  .wrapped (String.mk (errorfAux err.message format.data)) err

/-- The remote behind `github.Client`: `Search.Issues(ctx, query, opts)` answers a query, page
number and page size with the page's hits or an error; `PullRequests.Get(ctx, owner, repo,
number)` answers with the pull request or an error. -/
structure Remote where
  searchIssues : String → Int → Int → Except Error (List (Option Issue))
  pullRequestsGet : String → String → Int → Except Error PullRequest

/-- Nil-safe accessor `(*PullRequest).GetAdditions`. -/
def PullRequest.GetAdditions : Option PullRequest → Int
  | none => 0
  | some p => p.Additions.getD 0

/-- Nil-safe accessor `(*PullRequest).GetDeletions`. -/
def PullRequest.GetDeletions : Option PullRequest → Int
  | none => 0
  | some p => p.Deletions.getD 0

/-! ## Runs -/

/-- A request sent to the remote. -/
inductive Call where
  | searchIssues (query : String) (page perPage : Int)
  | pullRequestsGet (owner repo : String) (number : Int)
  deriving DecidableEq, Repr

/-- How a run ends: it returns a value, it panics on a nil pointer dereference, or it is
still running when the fuel is spent. -/
inductive Outcome (α : Type) where
  | returned (v : α)
  | panicked
  | running
  deriving DecidableEq, Repr

/-- A run: the requests sent, in order, and how it ends. -/
structure Run (α : Type) where
  calls : List Call
  outcome : Outcome α
  deriving DecidableEq, Repr

/-- Go's `int` on a 64-bit platform: the value of an integer after wrap-around. -/
def wrapInt (x : Int) : Int :=
  (x + 9223372036854775808) % 18446744073709551616 - 9223372036854775808

/-! ## `pkg/github/client.go` -/

/-- Client wraps the GitHub client with additional functionality. -/
structure Client where
  client : Remote
  user : String

/-- TimePeriod represents a time period for stats calculation. -/
structure TimePeriod where
  Name : String
  Since : Time
  Until : Time

/-- GetTimePeriods returns the time periods for stats calculation; `now` is the reading of
`time.Now()`. -/
def GetTimePeriods (now : Time) : List TimePeriod :=
  [ { Name := "Last Week", Since := now.AddDate 0 0 (-7), Until := now },
    { Name := "Last Month", Since := now.AddDate 0 (-1) 0, Until := now },
    { Name := "Last Year", Since := now.AddDate (-1) 0 0, Until := now } ]

/-- Stats represents GitHub statistics for a user. -/
structure Stats where
  PRsMerged : Int
  LinesAdded : Int
  LinesDeleted : Int
  PRsReviewed : Int
  Period : TimePeriod
  Organization : String

/-- The search query of `getMergedPRs`. -/
def Client.mergedQuery (c : Client) (org : String) (period : TimePeriod) : String :=
  let sinceStr := period.Since.Format "2006-01-02"
  let untilStr := period.Until.Format "2006-01-02"
  Sprintf "author:%s org:%s is:pr is:merged merged:%s..%s" [c.user, org, sinceStr, untilStr]

/-- The search query of `getReviewedPRs`. -/
def Client.reviewedQuery (c : Client) (org : String) (period : TimePeriod) : String :=
  let sinceStr := period.Since.Format "2006-01-02"
  let untilStr := period.Until.Format "2006-01-02"
  Sprintf "org:%s reviewed-by:%s created:%s..%s" [org, c.user, sinceStr, untilStr]

/-- The operands `*issue.Repository.Name` and `*issue.Number` of the detail fetch; `none` when
one of the dereferenced pointers is nil. -/
def issueArgs (issue : Option Issue) : Option (String × Int) := do
  let i ← issue
  let repo ← i.Repository
  let name ← repo.Name
  let number ← i.Number
  pure (name, number)

/-- The inner loop of `getMergedPRs`, `for _, issue := range searchResult.Issues`: each hit is
converted to a pull request, a hit whose fetch fails is skipped. -/
def Client.convertIssues (c : Client) (org : String) :
    List (Option Issue) → List (Option PullRequest) → Run (List (Option PullRequest))
  | [], result => ⟨[], .returned result⟩
  | issue :: rest, result =>
    match issueArgs issue with
    | none => ⟨[], .panicked⟩
    | some (name, number) =>
      let result :=
        match c.client.pullRequestsGet org name number with
        | .error _ => result
        | .ok pr => result ++ [some pr]
      let r := c.convertIssues org rest result
      ⟨Call.pullRequestsGet org name number :: r.calls, r.outcome⟩

/-- The loop of `getMergedPRs` from page `page` on, with `result` accumulated so far. -/
def Client.mergedLoop (c : Client) (org query : String) :
    Nat → Int → List (Option PullRequest) → Run (List (Option PullRequest) × Option Error)
  | 0, _, _ => ⟨[], .running⟩
  | fuel + 1, page, result =>
    match c.client.searchIssues query page 100 with
    | .error err => ⟨[Call.searchIssues query page 100], .returned ([], some err)⟩
    | .ok issues =>
      let inner := c.convertIssues org issues result
      match inner.outcome with
      | .panicked => ⟨Call.searchIssues query page 100 :: inner.calls, .panicked⟩
      | .running => ⟨Call.searchIssues query page 100 :: inner.calls, .running⟩
      | .returned result =>
        if issues.length < 100 then
          ⟨Call.searchIssues query page 100 :: inner.calls, .returned (result, none)⟩
        else
          let r := c.mergedLoop org query fuel (page + 1) result
          ⟨Call.searchIssues query page 100 :: inner.calls ++ r.calls, r.outcome⟩

/-- getMergedPRs gets the list of PRs merged by the user in the given time period. -/
def Client.getMergedPRs (c : Client) (fuel : Nat) (org : String) (period : TimePeriod) :
    Run (List (Option PullRequest) × Option Error) :=
  c.mergedLoop org (c.mergedQuery org period) fuel 1 []

/-- getLinesChangedInPRs calculates the total lines added and deleted in the given PRs. -/
def getLinesChangedInPRs (prs : List (Option PullRequest)) : Int × Int × Option Error :=
  let totals := prs.foldl
    (fun (t : Int × Int) pr =>
      (wrapInt (t.1 + PullRequest.GetAdditions pr), wrapInt (t.2 + PullRequest.GetDeletions pr)))
    (0, 0)
  (totals.1, totals.2, none)

/-- The loop of `getReviewedPRs` from page `page` on, with `count` accumulated so far. -/
def Client.reviewedLoop (c : Client) (query : String) :
    Nat → Int → Int → Run (Int × Option Error)
  | 0, _, _ => ⟨[], .running⟩
  | fuel + 1, page, count =>
    match c.client.searchIssues query page 100 with
    | .error err => ⟨[Call.searchIssues query page 100], .returned (0, some err)⟩
    | .ok issues =>
      let count := count + issues.length
      if issues.length < 100 then
        ⟨[Call.searchIssues query page 100], .returned (count, none)⟩
      else
        let r := c.reviewedLoop query fuel (page + 1) count
        ⟨Call.searchIssues query page 100 :: r.calls, r.outcome⟩

/-- getReviewedPRs gets the count of PRs reviewed by the user in the given time period. -/
def Client.getReviewedPRs (c : Client) (fuel : Nat) (org : String) (period : TimePeriod) :
    Run (Int × Option Error) :=
  c.reviewedLoop (c.reviewedQuery org period) fuel 1 0

/-- GetStats retrieves GitHub statistics for a user in an organization. -/
def Client.GetStats (c : Client) (fuel : Nat) (org : String) (period : TimePeriod) :
    Run (Option Stats × Option Error) :=
  let stats : Stats :=
    { PRsMerged := 0, LinesAdded := 0, LinesDeleted := 0, PRsReviewed := 0,
      Period := period, Organization := org }
  -- Get merged PRs
  let m := c.getMergedPRs fuel org period
  match m.outcome with
  | .panicked => ⟨m.calls, .panicked⟩
  | .running => ⟨m.calls, .running⟩
  | .returned (_, some err) =>
    ⟨m.calls, .returned (none, some (Errorf "error getting merged PRs: %w" err))⟩
  | .returned (mergedPRs, none) =>
    let stats := { stats with PRsMerged := mergedPRs.length }
    -- Get lines added/deleted
    match getLinesChangedInPRs mergedPRs with
    | (_, _, some err) =>
      ⟨m.calls, .returned (none, some (Errorf "error getting lines changed: %w" err))⟩
    | (linesAdded, linesDeleted, none) =>
      let stats := { stats with LinesAdded := linesAdded, LinesDeleted := linesDeleted }
      -- Get PRs reviewed
      let r := c.getReviewedPRs fuel org period
      match r.outcome with
      | .panicked => ⟨m.calls ++ r.calls, .panicked⟩
      | .running => ⟨m.calls ++ r.calls, .running⟩
      | .returned (_, some err) =>
        ⟨m.calls ++ r.calls, .returned (none, some (Errorf "error getting reviewed PRs: %w" err))⟩
      | .returned (reviewedPRs, none) =>
        ⟨m.calls ++ r.calls, .returned (some { stats with PRsReviewed := reviewedPRs }, none)⟩

/-! ## Vocabulary of the statements -/

/-- Whether the search request for a page (of size 100) succeeds. -/
def Client.searchOk (c : Client) (query : String) (page : Int) : Bool :=
  match c.client.searchIssues query page 100 with
  | .ok _ => true
  | .error _ => false

/-- The hits the remote serves on a page (of size 100); none when the request fails. -/
def Client.hitsOn (c : Client) (query : String) (page : Int) : List (Option Issue) :=
  match c.client.searchIssues query page 100 with
  | .ok issues => issues
  | .error _ => []

/-- Whether a request is a search request. -/
def Call.isSearch : Call → Bool
  | .searchIssues _ _ _ => true
  | .pullRequestsGet _ _ _ => false

/-- Whether a request is a search request that the remote answers with an error. -/
def Client.searchFails (c : Client) : Call → Bool
  | .searchIssues query page perPage =>
    match c.client.searchIssues query page perPage with
    | .ok _ => false
    | .error _ => true
  | .pullRequestsGet _ _ _ => false

/-- The pull request record of a hit: what `PullRequests.Get` returns for the hit's repository
name and number; `none` when the hit lacks one of them or the fetch fails. -/
def Client.detail (c : Client) (org : String) (hit : Option Issue) : Option PullRequest :=
  match issueArgs hit with
  | none => none
  | some (name, number) =>
    match c.client.pullRequestsGet org name number with
    | .ok pr => some pr
    | .error _ => none

/-- Whether the detail fetch of a hit fails (the hit has a name and a number, and
`PullRequests.Get` returns an error for them). -/
def Client.detailFails (c : Client) (org : String) (hit : Option Issue) : Bool :=
  match issueArgs hit with
  | none => false
  | some (name, number) =>
    match c.client.pullRequestsGet org name number with
    | .ok _ => false
    | .error _ => true

/-- Page `k` (pages count from 1) is the first page of the search with fewer than 100 hits,
and the requests for pages 1 to `k` all succeed. -/
def Client.FirstShortPage (c : Client) (query : String) (k : Nat) : Prop :=
  0 < k ∧ (∀ i : Nat, i < k → c.searchOk query ((i : Int) + 1) = true) ∧
    (∀ i : Nat, i < k - 1 → 100 ≤ (c.hitsOn query ((i : Int) + 1)).length) ∧
    (c.hitsOn query (k : Int)).length < 100

instance (c : Client) (query : String) (k : Nat) : Decidable (c.FirstShortPage query k) := by
  unfold Client.FirstShortPage; infer_instance

/-- Page `k` (pages count from 1) is the page at which the pagination of the search ends: the
requests for pages 1 to `k - 1` succeed with 100 hits or more each, and the request for page
`k` fails or is answered with fewer than 100 hits. -/
def Client.EndPage (c : Client) (query : String) (k : Nat) : Prop :=
  0 < k ∧
    (∀ i : Nat, i < k - 1 →
      c.searchOk query ((i : Int) + 1) = true ∧ 100 ≤ (c.hitsOn query ((i : Int) + 1)).length) ∧
    (c.searchOk query (k : Int) = false ∨ (c.hitsOn query (k : Int)).length < 100)

instance (c : Client) (query : String) (k : Nat) : Decidable (c.EndPage query k) := by
  unfold Client.EndPage; infer_instance

/-- The pagination of a search terminates: the request for some page (pages count from 1)
fails or is answered with fewer than 100 hits. -/
def Client.Terminates (c : Client) (query : String) : Prop :=
  ∃ n : Nat, c.searchOk query ((n : Int) + 1) = false ∨ (c.hitsOn query ((n : Int) + 1)).length < 100

/-- A run returns an error: its second result is not nil. -/
def Run.returnsError {α : Type} (r : Run (α × Option Error)) : Prop :=
  ∃ v err, r.outcome = .returned (v, some err)

/-- The hits of pages 1 to `k` of a search, in page order. -/
def Client.hitsUpTo (c : Client) (query : String) (k : Nat) : List (Option Issue) :=
  ((List.range k).map fun (i : Nat) => c.hitsOn query ((i : Int) + 1)).flatten

/-- The search requests for pages 1 to `k`, each with page size 100. -/
def pageRequests (query : String) (k : Nat) : List Call :=
  (List.range k).map fun (i : Nat) => Call.searchIssues query ((i : Int) + 1) 100

/-- The sum of a list of Go `int`s, as Go computes it. -/
def intSum (xs : List Int) : Int := wrapInt xs.sum

/-- The remote serves the fixed list `hits` in consecutive pages of 100 to the query, and no
request for a page fails. -/
def Client.Serves (c : Client) (query : String) (hits : List (Option Issue)) : Prop :=
  ∀ i : Nat, c.client.searchIssues query ((i : Int) + 1) 100 = .ok ((hits.drop (100 * i)).take 100)


/-! ## Concrete inputs -/

/-- The instant 2024-03-15T10:00:00Z. -/
def exampleNow : Time := Date 2024 3 15 10 0 0 0 UTC

/-- The period "Last Week" generated at `exampleNow`. -/
def exampleWeek : TimePeriod :=
  { Name := "Last Week", Since := exampleNow.AddDate 0 0 (-7), Until := exampleNow }

/-- A search hit for pull request `number` of repository `repo`. -/
def hit (repo : String) (number : Int) : Option Issue :=
  some { Number := some number, Repository := some { Name := some repo } }

/-- The same week with a start one hour later on the same calendar day. -/
def exampleWeekLater : TimePeriod :=
  { Name := "Last Week", Since := Date 2024 3 8 11 0 0 0 UTC, Until := exampleNow }

/-- A remote without pull requests: every search page is empty, every detail fetch fails. -/
def idleRemote : Remote :=
  { searchIssues := fun _ _ _ => .ok []
    pullRequestsGet := fun _ _ _ => .error (.remote "404 Not Found") }

/-- The client of user `user` on the idle remote. -/
def idleClient (user : String) : Client := { client := idleRemote, user := user }

/-- A remote whose merged-PR search for alice in acme over `exampleWeek` has 2 hits, with
additions 10 and 5 and deletions 2 and 1, and whose other searches have 4 hits; every page
after the first is empty. -/
def demoRemote : Remote :=
  { searchIssues := fun query page _ =>
      if page = 1 then
        if query = "author:alice org:acme is:pr is:merged merged:2024-03-08..2024-03-15" then
          .ok [hit "api" 1, hit "api" 2]
        else .ok [hit "web" 7, hit "web" 8, hit "web" 9, hit "api" 3]
      else .ok []
    pullRequestsGet := fun _ _ number =>
      if number = 1 then .ok { Additions := some 10, Deletions := some 2 }
      else if number = 2 then .ok { Additions := some 5, Deletions := some 1 }
      else .error (.remote "404 Not Found") }

/-- Alice on `demoRemote`. -/
def demoClient : Client := { client := demoRemote, user := "alice" }

/-- As `demoRemote`, with a third merged hit between the two whose detail fetch fails. -/
def lossyRemote : Remote :=
  { searchIssues := fun query page _ =>
      if page = 1 then
        if query = "author:alice org:acme is:pr is:merged merged:2024-03-08..2024-03-15" then
          .ok [hit "api" 1, hit "api" 4, hit "api" 2]
        else .ok [hit "web" 7, hit "web" 8, hit "web" 9, hit "api" 3]
      else .ok []
    pullRequestsGet := demoRemote.pullRequestsGet }

/-- Alice on `lossyRemote`. -/
def lossyClient : Client := { client := lossyRemote, user := "alice" }

/-- A remote that answers every search request, whatever the page, with the same 100 hits,
and every detail fetch with a record. -/
def endlessRemote : Remote :=
  { searchIssues := fun _ _ _ => .ok (List.replicate 100 (hit "api" 1))
    pullRequestsGet := fun _ _ _ => .ok { Additions := some 1, Deletions := some 1 } }

/-- Alice on `endlessRemote`. -/
def endlessClient : Client := { client := endlessRemote, user := "alice" }

/-- A remote with exactly 100 hits on page 1 and none on the pages after it; every detail
fetch succeeds. -/
def hundredRemote : Remote :=
  { searchIssues := fun _ page _ =>
      if page = 1 then .ok (List.replicate 100 (hit "api" 1)) else .ok []
    pullRequestsGet := fun _ _ _ => .ok { Additions := some 1, Deletions := some 1 } }

/-- Alice on `hundredRemote`. -/
def hundredClient : Client := { client := hundredRemote, user := "alice" }

/-- A remote whose searches have a full first page and fail on the second. -/
def brokenRemote : Remote :=
  { searchIssues := fun _ page _ =>
      if page = 1 then .ok (List.replicate 100 (hit "api" 1))
      else .error (.remote "502 Bad Gateway")
    pullRequestsGet := fun _ _ _ => .error (.remote "404 Not Found") }

/-- Alice on `brokenRemote`. -/
def brokenClient : Client := { client := brokenRemote, user := "alice" }

/-- A list of 100 hits, the first of which has no repository record. -/
def bareHits : List (Option Issue) :=
  some { Number := some 1, Repository := none } :: List.replicate 99 (hit "api" 1)

/-- A remote that serves `bareHits` in pages of 100 and never fails. -/
def bareRemote : Remote :=
  { searchIssues := fun _ page _ => .ok ((bareHits.drop (100 * (page - 1).toNat)).take 100)
    pullRequestsGet := fun _ _ _ => .ok { Additions := some 1, Deletions := some 1 } }

/-- Alice on `bareRemote`. -/
def bareClient : Client := { client := bareRemote, user := "alice" }

/-- A remote whose merged-PR search for alice in acme over `exampleWeek` has 2 hits and whose
other searches fail on the first page. -/
def reviewFailRemote : Remote :=
  { searchIssues := fun query page _ =>
      if query = "author:alice org:acme is:pr is:merged merged:2024-03-08..2024-03-15" then
        if page = 1 then .ok [hit "api" 1, hit "api" 2] else .ok []
      else .error (.remote "503 Service Unavailable")
    pullRequestsGet := demoRemote.pullRequestsGet }

/-- Alice on `reviewFailRemote`. -/
def reviewFailClient : Client := { client := reviewFailRemote, user := "alice" }

/-- A period in the year 10000: from 10000-01-01T00:00:00Z to 10000-01-08T00:00:00Z. -/
def farPeriod : TimePeriod :=
  { Name := "Last Week", Since := Date 10000 1 1 0 0 0 0 UTC, Until := Date 10000 1 8 0 0 0 0 UTC }

/-- The zones of America/New_York around 2024: Eastern Standard Time (UTC-5) until
2024-03-10T07:00:00Z, Eastern Daylight Time (UTC-4) until 2024-11-03T06:00:00Z, then standard
time again. -/
def newYork : Location :=
  { lookup := fun unix =>
      if unix < 1710054000 then { offset := -18000, start := 1699164000, fin := 1710054000 }
      else if unix < 1730613600 then { offset := -14400, start := 1710054000, fin := 1730613600 }
      else { offset := -18000, start := 1730613600, fin := 1741503600 } }

/-- The instant 2024-03-15T10:00:00 in New York (14:00:00Z). -/
def newYorkNow : Time := Date 2024 3 15 10 0 0 0 newYork

/-- A location whose clock is put forward by 8 days at 2024-03-15T10:00:00Z. -/
def leapLocation : Location :=
  { lookup := fun unix =>
      if unix < 1710496800 then { offset := 0, start := -9223372036854775808, fin := 1710496800 }
      else { offset := 691200, start := 1710496800, fin := 9223372036854775807 } }

/-- The instant 2024-03-15T10:00:00Z in `leapLocation`, the first instant of its second
zone. -/
def leapNow : Time := { sec := 63846093600, nsec := 0, loc := leapLocation }

end GithubStats

namespace GoTime

/-! ## Calendar lemmas -/

theorem isLeap_iff (y : Int) :
    isLeap y = true ↔ y % 4 = 0 ∧ (y % 100 ≠ 0 ∨ y % 400 = 0) := by
  simp [isLeap]

theorem cycle_arith (days n400 n100 q n4 n1 r : Int)
    (h1 : n400 = days / 146097) (h2 : n100 = (days - 146097 * n400) / 36524)
    (hq : q = n100 / 4)
    (h4 : n4 = (days - 146097 * n400 - 36524 * (n100 - q)) / 1461)
    (h5 : n1 = (days - 146097 * n400 - 36524 * (n100 - q) - 1461 * n4) / 365)
    (hr : r = n1 / 4) :
    daysSinceEpoch (400 * n400 + 100 * (n100 - q) + 4 * n4 + (n1 - r) + 1) +
        (days - 146097 * n400 - 36524 * (n100 - q) - 1461 * n4 - 365 * (n1 - r)) = days ∧
      0 ≤ days - 146097 * n400 - 36524 * (n100 - q) - 1461 * n4 - 365 * (n1 - r) ∧
      days - 146097 * n400 - 36524 * (n100 - q) - 1461 * n4 - 365 * (n1 - r) < 366 ∧
      (days - 146097 * n400 - 36524 * (n100 - q) - 1461 * n4 - 365 * (n1 - r) = 365 →
        (400 * n400 + 100 * (n100 - q) + 4 * n4 + (n1 - r) + 1) % 4 = 0 ∧
        ((400 * n400 + 100 * (n100 - q) + 4 * n4 + (n1 - r) + 1) % 100 ≠ 0 ∨
          (400 * n400 + 100 * (n100 - q) + 4 * n4 + (n1 - r) + 1) % 400 = 0)) := by
  have b1 : 0 ≤ n100 ∧ n100 ≤ 4 := by omega
  have b2 : 0 ≤ n100 - q ∧ n100 - q ≤ 3 := by omega
  have b3 : 0 ≤ n4 ∧ n4 ≤ 24 := by omega
  have b4 : 0 ≤ n1 ∧ n1 ≤ 4 := by omega
  have b5 : 0 ≤ n1 - r ∧ n1 - r ≤ 3 := by omega
  have e1 : (400 * n400 + 100 * (n100 - q) + 4 * n4 + (n1 - r) + 1 - 1) / 400 = n400 := by
    clear h1 h2 hq h4 h5 hr
    omega
  have e2 : (400 * n400 + 100 * (n100 - q) + 4 * n4 + (n1 - r) + 1 - 1 - 400 * n400) / 100
      = n100 - q := by
    clear h1 h2 hq h4 h5 hr
    omega
  have e3 : (400 * n400 + 100 * (n100 - q) + 4 * n4 + (n1 - r) + 1 - 1 - 400 * n400
      - 100 * (n100 - q)) / 4 = n4 := by
    clear h1 h2 hq h4 h5 hr
    omega
  simp only [daysSinceEpoch, e1, e2, e3]
  refine ⟨by omega, by omega, by omega, ?_⟩
  intro h
  omega

theorem yearDay_spec (days : Int) :
    daysSinceEpoch (yearDay days).1 + (yearDay days).2 = days ∧ 0 ≤ (yearDay days).2 ∧
      (yearDay days).2 < (if isLeap (yearDay days).1 then 366 else 365) := by
  have h := cycle_arith days _ _ _ _ _ _ rfl rfl rfl rfl rfl rfl
  refine ⟨h.1, h.2.1, ?_⟩
  by_cases hl : isLeap (yearDay days).1 = true
  · rw [if_pos hl]; exact h.2.2.1
  · rw [if_neg hl]
    have h3 := h.2.2.1
    have h4 := h.2.2.2
    rw [isLeap_iff] at hl
    by_contra hc
    exact hl (h4 (by simp only [yearDay] at hc ⊢; omega))

theorem monthDay_core (day : Int) (h0 : 0 ≤ day) (h1 : day < 365) :
    1 ≤ (monthDay false day).1 ∧ (monthDay false day).1 ≤ 12 ∧
      1 ≤ (monthDay false day).2 ∧ (monthDay false day).2 ≤ 31 ∧
      daysBefore ((monthDay false day).1 - 1).toNat + ((monthDay false day).2 - 1) = day ∧
      ((monthDay false day).1 ≥ 3 ↔ day ≥ 59) := by
  obtain ⟨k, hk, hk2⟩ : ∃ k : Nat, k < 12 ∧ day / 31 = k :=
    ⟨(day / 31).toNat, by omega, by omega⟩
  simp only [monthDay, Bool.false_and, if_false, Bool.false_eq_true]
  rw [hk2]
  interval_cases k <;> simp [daysBefore] <;> split_ifs <;> simp <;> omega

theorem monthDay_leap (yday : Int) :
    monthDay true yday =
      if yday = 59 then (2, 29) else monthDay false (if yday > 59 then yday - 1 else yday) := by
  simp only [monthDay, Bool.true_and, Bool.false_and, Bool.false_eq_true, if_false,
    beq_iff_eq, decide_eq_true_eq]

theorem monthDay_spec (leap : Bool) (yday : Int) (h0 : 0 ≤ yday)
    (h1 : yday < (if leap then 366 else 365)) :
    1 ≤ (monthDay leap yday).1 ∧ (monthDay leap yday).1 ≤ 12 ∧
      1 ≤ (monthDay leap yday).2 ∧ (monthDay leap yday).2 ≤ 31 ∧
      daysBefore ((monthDay leap yday).1 - 1).toNat
        + (if leap && decide ((monthDay leap yday).1 ≥ 3) then 1 else 0)
        + ((monthDay leap yday).2 - 1) = yday := by
  cases leap
  · simp only [Bool.false_eq_true, if_false] at h1
    obtain ⟨a, b, c, d, e, _⟩ := monthDay_core yday h0 h1
    refine ⟨a, b, c, d, ?_⟩
    simp only [Bool.false_and, Bool.false_eq_true, if_false]
    omega
  · simp only [if_true] at h1
    rw [monthDay_leap]
    by_cases h59 : yday = 59
    · subst h59; simp [daysBefore]
    · rw [if_neg h59]
      by_cases hgt : yday > 59
      · rw [if_pos hgt]
        obtain ⟨a, b, c, d, e, f⟩ := monthDay_core (yday - 1) (by omega) (by omega)
        refine ⟨a, b, c, d, ?_⟩
        have : (monthDay false (yday - 1)).1 ≥ 3 := f.2 (by omega)
        simp only [Bool.true_and, this, decide_True, if_true]
        omega
      · rw [if_neg hgt]
        obtain ⟨a, b, c, d, e, f⟩ := monthDay_core yday (by omega) (by omega)
        refine ⟨a, b, c, d, ?_⟩
        have : ¬ (monthDay false yday).1 ≥ 3 := fun h => by have := f.1 h; omega
        simp only [Bool.true_and, this, decide_False, Bool.false_eq_true, if_false]
        omega
theorem norm12 (hi lo : Int) : norm hi lo 12 = (hi + lo / 12, lo % 12) := by
  simp only [norm]
  split_ifs <;> simp <;> omega

theorem norm_id (hi lo base : Int) (h0 : 0 ≤ lo) (h1 : lo < base) : norm hi lo base = (hi, lo) := by
  have a : ¬ lo < 0 := by omega
  have b : ¬ base ≤ lo := by omega
  simp only [norm, if_neg a, ge_iff_le, if_neg b]

theorem absDate_spec (days : Int) :
    1 ≤ (absDate days).2.1 ∧ (absDate days).2.1 ≤ 12 ∧
      1 ≤ (absDate days).2.2 ∧ (absDate days).2.2 ≤ 31 ∧
      daysOf (absDate days).1 (absDate days).2.1 (absDate days).2.2 = days := by
  obtain ⟨h1, h2, h3⟩ := yearDay_spec days
  obtain ⟨a, b, c, d, e⟩ := monthDay_spec (isLeap (yearDay days).1) (yearDay days).2 h2 h3
  simp only [absDate]
  refine ⟨a, b, c, d, ?_⟩
  have hn : norm (yearDay days).1 ((monthDay (isLeap (yearDay days).1) (yearDay days).2).1 - 1) 12
      = ((yearDay days).1, (monthDay (isLeap (yearDay days).1) (yearDay days).2).1 - 1) :=
    norm_id _ _ _ (by omega) (by omega)
  simp only [daysOf, hn, sub_add_cancel]
  omega

theorem daysSinceEpoch_succ (y : Int) :
    daysSinceEpoch (y + 1) = daysSinceEpoch y + (if isLeap y then 366 else 365) := by
  by_cases h : isLeap y = true
  · rw [if_pos h]
    rw [isLeap_iff] at h
    simp only [daysSinceEpoch]
    omega
  · rw [if_neg h]
    rw [isLeap_iff] at h
    simp only [daysSinceEpoch]
    omega

theorem offsetFor_lookup (l : Location) (unix : Int) :
    ∃ s : Int, l.offsetFor unix = (l.lookup s).offset := by
  simp only [Location.offsetFor]
  split_ifs
  · exact ⟨_, rfl⟩
  · exact ⟨_, rfl⟩
  · exact ⟨_, rfl⟩

theorem Date_inrange (year month day h mi s : Int) (ns : Fin 1000000000) (loc : Location)
    (hh : 0 ≤ h ∧ h < 24) (hm : 0 ≤ mi ∧ mi < 60) (hs : 0 ≤ s ∧ s < 60) :
    Date year month day h mi s ns.val loc =
      { sec := daysOf year month day * 86400 + (h * 3600 + mi * 60 + s)
          - loc.offsetFor (daysOf year month day * 86400 + (h * 3600 + mi * 60 + s)
              - unixToInternal),
        nsec := ns, loc := loc } := by
  have hns : norm s (ns.val : Int) 1000000000 = (s, (ns.val : Int)) :=
    norm_id _ _ _ (by omega) (by have := ns.isLt; omega)
  have e1 : norm mi s 60 = (mi, s) := norm_id _ _ _ hs.1 hs.2
  have e2 : norm h mi 60 = (h, mi) := norm_id _ _ _ hm.1 hm.2
  have e3 : norm day h 24 = (day, h) := norm_id _ _ _ hh.1 hh.2
  have ed : (if (isLeap (norm year (month - 1) 12).1 && decide ((norm year (month - 1) 12).2 + 1 ≥ 3))
        = true
      then daysSinceEpoch (norm year (month - 1) 12).1
        + daysBefore ((norm year (month - 1) 12).2 + 1 - 1).toNat + 1
      else daysSinceEpoch (norm year (month - 1) 12).1
        + daysBefore ((norm year (month - 1) 12).2 + 1 - 1).toNat) + (day - 1)
      = daysOf year month day := by
    simp only [daysOf, add_sub_cancel_right]
    split_ifs <;> ring
  simp only [Date, hns, e1, e2, e3, Int.toNat_ofNat, ed]
  congr 1
  · ring
  · apply Fin.ext
    simp [Fin.ofNat, Nat.mod_eq_of_lt ns.isLt]

theorem AddDate_eq (t : Time) (years months days : Int) :
    ∃ s : Int, t.AddDate years months days =
      { sec := daysOf (t.date.1 + years) (t.date.2.1 + months) (t.date.2.2 + days) * 86400
          + t.abs % 86400 - (t.loc.lookup s).offset,
        nsec := t.nsec, loc := t.loc } := by
  obtain ⟨s, hs⟩ := offsetFor_lookup t.loc
    (daysOf (t.date.1 + years) (t.date.2.1 + months) (t.date.2.2 + days) * 86400
      + (t.abs % 86400 / 3600 * 3600 + t.abs % 86400 % 3600 / 60 * 60 + t.abs % 86400 % 60)
      - unixToInternal)
  refine ⟨s, ?_⟩
  simp only [Time.AddDate, Time.clock]
  rw [Date_inrange _ _ _ _ _ _ _ _ (by omega) (by omega) (by omega), hs]
  congr 1
  omega

theorem daysOf_date (t : Time) : daysOf t.date.1 t.date.2.1 t.date.2.2 = t.abs / 86400 :=
  (absDate_spec (t.abs / 86400)).2.2.2.2

theorem daysOf_add_day (y m d k : Int) : daysOf y m (d + k) = daysOf y m d + k := by
  simp only [daysOf]
  ring

theorem daysOf_january_back (y d : Int) : daysOf y 0 d = daysOf y 1 d - 31 := by
  have hs := daysSinceEpoch_succ (y + -1)
  rw [neg_add_cancel_right] at hs
  have e1 : norm y (0 - 1) 12 = (y + -1, 11) := by rw [norm12]; rfl
  have e2 : norm y (1 - 1) 12 = (y, 0) := by rw [norm12]; simp
  have e3 : daysBefore (Int.toNat 11) = 334 := rfl
  have e4 : daysBefore (Int.toNat 0) = 0 := rfl
  simp only [daysOf, e1, e2, e3, e4]
  norm_num
  split_ifs at hs ⊢ <;> omega

theorem daysOf_month_back (y m d : Int) (h1 : 1 ≤ m) (h12 : m ≤ 12) :
    daysOf y m d - 31 ≤ daysOf y (m - 1) d ∧ daysOf y (m - 1) d ≤ daysOf y m d - 28 := by
  obtain ⟨k, hk, rfl⟩ : ∃ k : Nat, k < 12 ∧ m = k + 1 := ⟨(m - 1).toNat, by omega, by omega⟩
  rcases Nat.eq_zero_or_pos k with rfl | hpos
  · have := daysOf_january_back y d
    norm_num
    omega
  · simp only [daysOf, norm12]
    interval_cases k <;> simp [daysBefore] <;> (try split_ifs) <;> omega

theorem daysOf_year_back (y m d : Int) (h1 : 1 ≤ m) (h12 : m ≤ 12) :
    daysOf y m d - 366 ≤ daysOf (y - 1) m d ∧ daysOf (y - 1) m d ≤ daysOf y m d - 365 := by
  have hs := daysSinceEpoch_succ (y - 1)
  rw [sub_add_cancel] at hs
  have hn : ∀ z : Int, norm z (m - 1) 12 = (z, m - 1) :=
    fun z => norm_id _ _ _ (by omega) (by omega)
  have hl : ¬ (isLeap (y - 1) = true ∧ isLeap y = true) := by
    rw [isLeap_iff, isLeap_iff]
    omega
  simp only [daysOf, hn, Bool.and_eq_true, decide_eq_true_eq]
  split_ifs at hs ⊢ <;> first | omega | (exfalso; tauto)


/-! ## Decimal rendering -/

theorem decimalAux_append (fuel : Nat) :
    ∀ (u : Nat) (acc : List Char), decimalAux fuel u acc = decimalAux fuel u [] ++ acc := by
  induction fuel with
  | zero => intro u acc; simp [decimalAux]
  | succ f ih =>
    intro u acc
    simp only [decimalAux]
    split_ifs
    · simp
    · rw [ih (u / 10) (_ :: acc), ih (u / 10) [_]]
      simp

theorem decimalAux_fuel (fuel : Nat) :
    ∀ (fuel' u : Nat) (acc : List Char), u < fuel → u < fuel' →
      decimalAux fuel u acc = decimalAux fuel' u acc := by
  induction fuel with
  | zero => intro fuel' u acc h; omega
  | succ f ih =>
    intro fuel' u acc h h'
    obtain ⟨f', rfl⟩ : ∃ f', fuel' = f' + 1 := ⟨fuel' - 1, by omega⟩
    simp only [decimalAux]
    split_ifs with h0
    · rfl
    · exact ih f' (u / 10) _ (by omega) (by omega)

theorem decimal_rec (u : Nat) :
    decimal u =
      if u / 10 = 0 then [Char.ofNat (48 + u % 10)]
      else decimal (u / 10) ++ [Char.ofNat (48 + u % 10)] := by
  have e : decimalAux (u + 1) u [] =
      if u / 10 = 0 then [Char.ofNat (48 + u % 10)]
      else decimalAux u (u / 10) [Char.ofNat (48 + u % 10)] := rfl
  unfold decimal
  rw [e]
  split_ifs with h0
  · rfl
  · rw [decimalAux_append, decimalAux_fuel u (u / 10 + 1) (u / 10) [] (by omega) (by omega)]

theorem digitVal_ofNat (k : Nat) (h : k < 10) : digitVal (Char.ofNat (48 + k)) = k := by
  interval_cases k <;> rfl

theorem decodeNat_append (xs : List Char) (c : Char) :
    decodeNat (xs ++ [c]) = 10 * decodeNat xs + digitVal c := by
  simp [decodeNat, List.foldl_append]

theorem decodeNat_decimal (u : Nat) : decodeNat (decimal u) = u := by
  induction u using Nat.strong_induction_on with
  | _ u ih =>
    rw [decimal_rec]
    split_ifs with h0
    · simp only [decodeNat, List.foldl_cons, List.foldl_nil, mul_zero, zero_add]
      rw [digitVal_ofNat _ (Nat.mod_lt _ (by norm_num))]
      omega
    · rw [decodeNat_append, ih (u / 10) (by omega), digitVal_ofNat _ (Nat.mod_lt _ (by norm_num))]
      omega

/-- A decimal digit character. -/
theorem digit_ne (k : Nat) (h : k < 10) :
    Char.ofNat (48 + k) ≠ '-' ∧ Char.ofNat (48 + k) ≠ '.' ∧ Char.ofNat (48 + k) ≠ ' ' := by
  interval_cases k <;> decide

theorem decimal_digits (u : Nat) : ∀ c ∈ decimal u, ∃ k, k < 10 ∧ c = Char.ofNat (48 + k) := by
  induction u using Nat.strong_induction_on with
  | _ u ih =>
    rw [decimal_rec]
    split_ifs with h0
    · intro c hc
      rw [List.mem_singleton] at hc
      exact ⟨u % 10, Nat.mod_lt _ (by norm_num), hc⟩
    · intro c hc
      rw [List.mem_append, List.mem_singleton] at hc
      rcases hc with hc | hc
      · exact ih (u / 10) (by omega) c hc
      · exact ⟨u % 10, Nat.mod_lt _ (by norm_num), hc⟩

theorem decimal_ne_nil (u : Nat) : decimal u ≠ [] := by
  rw [decimal_rec]
  split_ifs <;> simp

/-- The digits and padding of `appendInt`, without the sign. -/
theorem padded_decode (w u : Nat) :
    decodeNat (List.replicate (w - (decimal u).length) '0' ++ decimal u) = u := by
  have hz : ∀ n : Nat, List.foldl (fun a c => 10 * a + digitVal c) 0 (List.replicate n '0') = 0 := by
    intro n
    induction n with
    | zero => rfl
    | succ n ih => rw [List.replicate_succ, List.foldl_cons]; exact ih
  have := decodeNat_decimal u
  simp only [decodeNat] at this ⊢
  rw [List.foldl_append, hz, this]

theorem padded_chars (w u : Nat) :
    ∀ c ∈ List.replicate (w - (decimal u).length) '0' ++ decimal u,
      ∃ k, k < 10 ∧ c = Char.ofNat (48 + k) := by
  intro c hc
  rw [List.mem_append] at hc
  rcases hc with hc | hc
  · exact ⟨0, by norm_num, (List.mem_replicate.mp hc).2⟩
  · exact decimal_digits u c hc

theorem appendInt_eq (b : List Char) (x : Int) (w : Nat) :
    appendInt b x w = b ++ appendInt [] x w := by
  simp only [appendInt]
  split_ifs <;> simp

theorem appendInt_neg (x : Int) (w : Nat) (h : x < 0) :
    appendInt [] x w =
      '-' :: (List.replicate (w - (decimal x.natAbs).length) '0' ++ decimal x.natAbs) := by
  simp [appendInt, h]

theorem appendInt_nonneg (x : Int) (w : Nat) (h : ¬ x < 0) :
    appendInt [] x w =
      List.replicate (w - (decimal x.natAbs).length) '0' ++ decimal x.natAbs := by
  simp [appendInt, h]

theorem appendInt_chars (x : Int) (w : Nat) :
    ∀ c ∈ appendInt [] x w, c ≠ '.' ∧ c ≠ ' ' := by
  intro c hc
  have key : ∀ c ∈ List.replicate (w - (decimal x.natAbs).length) '0' ++ decimal x.natAbs,
      c ≠ '.' ∧ c ≠ ' ' := by
    intro c hc
    obtain ⟨k, hk, rfl⟩ := padded_chars w x.natAbs c hc
    exact (digit_ne k hk).2
  by_cases hx : x < 0
  · rw [appendInt_neg x w hx, List.mem_cons] at hc
    rcases hc with rfl | hc
    · decide
    · exact key c hc
  · rw [appendInt_nonneg x w hx] at hc
    exact key c hc

theorem appendInt_inj (x y : Int) (w : Nat) (h : appendInt [] x w = appendInt [] y w) :
    x = y := by
  have hd : ∀ (u : Nat) (rest : List Char),
      List.replicate (w - (decimal u).length) '0' ++ decimal u ≠ '-' :: rest := by
    intro u rest he
    have hm : '-' ∈ List.replicate (w - (decimal u).length) '0' ++ decimal u := by
      rw [he]; exact List.mem_cons_self _ _
    obtain ⟨k, hk, hc⟩ := padded_chars w u _ hm
    exact (digit_ne k hk).1 hc.symm
  by_cases hx : x < 0 <;> by_cases hy : y < 0
  · rw [appendInt_neg x w hx, appendInt_neg y w hy] at h
    have := congrArg decodeNat (List.cons.inj h).2
    rw [padded_decode, padded_decode] at this
    omega
  · rw [appendInt_neg x w hx, appendInt_nonneg y w hy] at h
    exact absurd h.symm (hd _ _)
  · rw [appendInt_nonneg x w hx, appendInt_neg y w hy] at h
    exact absurd h (hd _ _)
  · rw [appendInt_nonneg x w hx, appendInt_nonneg y w hy] at h
    have := congrArg decodeNat h
    rw [padded_decode, padded_decode] at this
    omega


/-! ## The layout `2006-01-02` -/

/-- The characters `Format` produces for the layout `2006-01-02`. -/
theorem appendFormat_layout (y m d : Int) :
    appendFormat y m d "2006-01-02".data [] =
      appendInt [] y 4 ++ '-' :: (appendInt [] m 2 ++ '-' :: appendInt [] d 2) := by
  have e : appendFormat y m d "2006-01-02".data [] =
      appendInt (appendInt (appendInt [] y 4 ++ ['-']) m 2 ++ ['-']) d 2 := rfl
  rw [e, appendInt_eq (_ ++ ['-']) d 2, appendInt_eq (_ ++ ['-']) m 2]
  simp

theorem Format_layout (t : Time) :
    t.Format "2006-01-02" =
      String.mk (appendInt [] t.date.1 4 ++ '-' ::
        (appendInt [] t.date.2.1 2 ++ '-' :: appendInt [] t.date.2.2 2)) := by
  unfold Time.Format
  exact congrArg String.mk (appendFormat_layout _ _ _)

theorem decimal_lt10 (u : Nat) (h : u < 10) : decimal u = [Char.ofNat (48 + u)] := by
  rw [decimal_rec, if_pos (by omega), Nat.mod_eq_of_lt h]

theorem decimal_ge10 (u : Nat) (h : 10 ≤ u) :
    decimal u = decimal (u / 10) ++ [Char.ofNat (48 + u % 10)] := by
  rw [decimal_rec, if_neg (by omega)]

theorem appendInt2 (x : Int) (h0 : 0 ≤ x) (h1 : x < 100) :
    appendInt [] x 2 = [digitChar (x / 10 % 10), digitChar (x % 10)] := by
  obtain ⟨n, rfl⟩ : ∃ n : Nat, x = n := ⟨x.toNat, by omega⟩
  rw [appendInt_nonneg _ _ (by omega)]
  simp only [Int.natAbs_ofNat, digitChar]
  have e1 : ((n : Int) / 10 % 10).toNat = n / 10 := by omega
  have e2 : ((n : Int) % 10).toNat = n % 10 := by omega
  rw [e1, e2]
  by_cases h : n < 10
  · rw [decimal_lt10 n h]
    have : n / 10 = 0 := by omega
    have : n % 10 = n := by omega
    simp [*]
  · rw [decimal_ge10 n (by omega), decimal_lt10 (n / 10) (by omega)]
    simp

theorem appendInt4 (x : Int) (h0 : 0 ≤ x) (h1 : x < 10000) :
    appendInt [] x 4 =
      [digitChar (x / 1000 % 10), digitChar (x / 100 % 10), digitChar (x / 10 % 10),
        digitChar (x % 10)] := by
  obtain ⟨n, rfl⟩ : ∃ n : Nat, x = n := ⟨x.toNat, by omega⟩
  rw [appendInt_nonneg _ _ (by omega)]
  simp only [Int.natAbs_ofNat, digitChar]
  have e1 : ((n : Int) / 1000 % 10).toNat = n / 1000 := by omega
  have e2 : ((n : Int) / 100 % 10).toNat = n / 100 % 10 := by omega
  have e3 : ((n : Int) / 10 % 10).toNat = n / 10 % 10 := by omega
  have e4 : ((n : Int) % 10).toNat = n % 10 := by omega
  rw [e1, e2, e3, e4]
  by_cases h : n < 10
  · rw [decimal_lt10 n h]
    have : n / 1000 = 0 := by omega
    have : n / 100 % 10 = 0 := by omega
    have : n / 10 % 10 = 0 := by omega
    have : n % 10 = n := by omega
    simp [*]
  · by_cases h' : n < 100
    · rw [decimal_ge10 n (by omega), decimal_lt10 (n / 10) (by omega)]
      have : n / 1000 = 0 := by omega
      have : n / 100 % 10 = 0 := by omega
      have : n / 10 % 10 = n / 10 := by omega
      simp [*]
    · by_cases h'' : n < 1000
      · rw [decimal_ge10 n (by omega), decimal_ge10 (n / 10) (by omega),
          decimal_lt10 (n / 10 / 10) (by omega)]
        have : n / 1000 = 0 := by omega
        have : n / 100 % 10 = n / 10 / 10 := by omega
        simp [*]
      · rw [decimal_ge10 n (by omega), decimal_ge10 (n / 10) (by omega),
          decimal_ge10 (n / 10 / 10) (by omega), decimal_lt10 (n / 10 / 10 / 10) (by omega)]
        have : n / 1000 = n / 10 / 10 / 10 := by omega
        have : n / 100 % 10 = n / 10 / 10 % 10 := by omega
        simp [*]


/-- The characters of a date in the layout `2006-01-02`. -/
theorem dateChars_iso (y m d : Int) (hy : 0 ≤ y ∧ y < 10000) (hm : 0 ≤ m ∧ m < 100)
    (hd : 0 ≤ d ∧ d < 100) :
    String.mk (appendInt [] y 4 ++ '-' :: (appendInt [] m 2 ++ '-' :: appendInt [] d 2)) =
      isoDate y m d := by
  rw [appendInt4 y hy.1 hy.2, appendInt2 m hm.1 hm.2, appendInt2 d hd.1 hd.2]
  rfl

theorem dateChars_inj (y m d y' m' d' : Int) (hm : 0 ≤ m ∧ m < 100) (hd : 0 ≤ d ∧ d < 100)
    (hm' : 0 ≤ m' ∧ m' < 100) (hd' : 0 ≤ d' ∧ d' < 100)
    (h : appendInt [] y 4 ++ '-' :: (appendInt [] m 2 ++ '-' :: appendInt [] d 2) =
      appendInt [] y' 4 ++ '-' :: (appendInt [] m' 2 ++ '-' :: appendInt [] d' 2)) :
    y = y' ∧ m = m' ∧ d = d' := by
  have lm : (appendInt [] m 2).length = 2 := by rw [appendInt2 m hm.1 hm.2]; rfl
  have lm' : (appendInt [] m' 2).length = 2 := by rw [appendInt2 m' hm'.1 hm'.2]; rfl
  have ld : (appendInt [] d 2).length = 2 := by rw [appendInt2 d hd.1 hd.2]; rfl
  have ld' : (appendInt [] d' 2).length = 2 := by rw [appendInt2 d' hd'.1 hd'.2]; rfl
  obtain ⟨h1, h2⟩ := List.append_inj' h (by simp [lm, lm', ld, ld'])
  obtain ⟨h3, h4⟩ := List.append_inj (List.cons.inj h2).2 (by rw [lm, lm'])
  exact ⟨appendInt_inj y y' 4 h1, appendInt_inj m m' 2 h3,
    appendInt_inj d d' 2 (List.cons.inj h4).2⟩

theorem dateChars_no_dot (y m d : Int) :
    ∀ c ∈ appendInt [] y 4 ++ '-' :: (appendInt [] m 2 ++ '-' :: appendInt [] d 2),
      c ≠ '.' := by
  intro c hc
  simp only [List.mem_append, List.mem_cons] at hc
  rcases hc with hc | rfl | hc | rfl | hc
  · exact (appendInt_chars y 4 c hc).1
  · decide
  · exact (appendInt_chars m 2 c hc).1
  · decide
  · exact (appendInt_chars d 2 c hc).1

end GoTime

namespace GithubStats

open GoTime GoFmt

/-! ## The query strings -/

theorem mergedQuery_eq (c : Client) (org : String) (period : TimePeriod) :
    c.mergedQuery org period =
      "author:" ++ c.user ++ " org:" ++ org ++ " is:pr is:merged merged:"
        ++ period.Since.Format "2006-01-02" ++ ".." ++ period.Until.Format "2006-01-02" := by
  apply String.ext
  simp [Client.mergedQuery, Sprintf, sprintfAux, String.data_append]

theorem reviewedQuery_eq (c : Client) (org : String) (period : TimePeriod) :
    c.reviewedQuery org period =
      "org:" ++ org ++ " reviewed-by:" ++ c.user ++ " created:"
        ++ period.Since.Format "2006-01-02" ++ ".." ++ period.Until.Format "2006-01-02" := by
  apply String.ext
  simp [Client.reviewedQuery, Sprintf, sprintfAux, String.data_append]

/-- Two strings cut at the first occurrence of a separator that neither head contains. -/
theorem split_at_sep (sep : Char) (u : List Char) :
    ∀ (u' r r' : List Char), sep ∉ u → sep ∉ u' → u ++ sep :: r = u' ++ sep :: r' →
      u = u' ∧ r = r' := by
  induction u with
  | nil =>
    intro u' r r' _ h' h
    cases u' with
    | nil => exact ⟨rfl, (List.cons.inj h).2⟩
    | cons a u' =>
      simp only [List.nil_append, List.cons_append, List.cons.injEq] at h
      exact absurd (h.1 ▸ List.mem_cons_self _ _) h'
  | cons a u ih =>
    intro u' r r' hu h' h
    cases u' with
    | nil =>
      simp only [List.nil_append, List.cons_append, List.cons.injEq] at h
      exact absurd (h.1 ▸ List.mem_cons_self _ _) hu
    | cons b u' =>
      simp only [List.cons_append, List.cons.injEq] at h
      obtain ⟨e1, e2⟩ := ih u' r r' (fun hm => hu (List.mem_cons_of_mem _ hm))
        (fun hm => h' (List.mem_cons_of_mem _ hm)) h.2
      exact ⟨by rw [h.1, e1], e2⟩


theorem query_lists_inj (A B C u o s t u' o' s' t' : List Char)
    (hu : ' ' ∉ u) (hu' : ' ' ∉ u') (ho : ' ' ∉ o) (ho' : ' ' ∉ o')
    (hs : '.' ∉ s) (hs' : '.' ∉ s')
    (h : A ++ (u ++ ' ' :: (B ++ (o ++ ' ' :: (C ++ (s ++ '.' :: '.' :: t))))) =
      A ++ (u' ++ ' ' :: (B ++ (o' ++ ' ' :: (C ++ (s' ++ '.' :: '.' :: t')))))) :
    u = u' ∧ o = o' ∧ s = s' ∧ t = t' := by
  obtain ⟨e1, h1⟩ := split_at_sep ' ' u u' _ _ hu hu' (List.append_cancel_left h)
  obtain ⟨e2, h2⟩ := split_at_sep ' ' o o' _ _ ho ho' (List.append_cancel_left h1)
  obtain ⟨e3, h3⟩ := split_at_sep '.' s s' _ _ hs hs' (List.append_cancel_left h2)
  exact ⟨e1, e2, e3, (List.cons.inj h3).2⟩

theorem mergedQuery_data (u o s t : String) :
    ("author:" ++ u ++ " org:" ++ o ++ " is:pr is:merged merged:" ++ s ++ ".." ++ t).data =
      "author:".data ++ (u.data ++ ' ' :: ("org:".data ++ (o.data ++ ' ' ::
        ("is:pr is:merged merged:".data ++ (s.data ++ '.' :: '.' :: t.data))))) := by
  simp [String.data_append]

theorem reviewedQuery_data (u o s t : String) :
    ("org:" ++ o ++ " reviewed-by:" ++ u ++ " created:" ++ s ++ ".." ++ t).data =
      "org:".data ++ (o.data ++ ' ' :: ("reviewed-by:".data ++ (u.data ++ ' ' ::
        ("created:".data ++ (s.data ++ '.' :: '.' :: t.data))))) := by
  simp [String.data_append]

theorem Format_no_dot (t : Time) : '.' ∉ (t.Format "2006-01-02").data := by
  rw [Format_layout]
  intro h
  exact dateChars_no_dot _ _ _ _ h rfl

/-- The calendar date is read off the rendering, for months and days of month in range. -/
theorem Format_inj (t t' : Time)
    (hm : 0 ≤ t.date.2.1 ∧ t.date.2.1 < 100) (hd : 0 ≤ t.date.2.2 ∧ t.date.2.2 < 100)
    (hm' : 0 ≤ t'.date.2.1 ∧ t'.date.2.1 < 100) (hd' : 0 ≤ t'.date.2.2 ∧ t'.date.2.2 < 100)
    (h : t.Format "2006-01-02" = t'.Format "2006-01-02") : t.date = t'.date := by
  rw [Format_layout, Format_layout] at h
  obtain ⟨a, b, c⟩ := dateChars_inj _ _ _ _ _ _ hm hd hm' hd' (congrArg String.data h)
  exact Prod.ext a (Prod.ext b c)

theorem Format_of_date (t t' : Time) (h : t.date = t'.date) :
    t.Format "2006-01-02" = t'.Format "2006-01-02" := by
  simp only [Time.Format, h]


/-! ## The loops -/

theorem convertIssues_calls (c : Client) (org : String) (hits : List (Option Issue))
    (acc : List (Option PullRequest)) :
    ∀ call ∈ (c.convertIssues org hits acc).calls, call.isSearch = false := by
  induction hits generalizing acc with
  | nil => intro call h; simp [Client.convertIssues] at h
  | cons hit rest ih =>
    intro call h
    simp only [Client.convertIssues] at h
    split at h
    · simp at h
    · simp only [List.mem_cons] at h
      rcases h with rfl | h
      · rfl
      · exact ih _ call h

theorem convertIssues_not_running (c : Client) (org : String) (hits : List (Option Issue))
    (acc : List (Option PullRequest)) :
    (c.convertIssues org hits acc).outcome ≠ .running := by
  induction hits generalizing acc with
  | nil => simp [Client.convertIssues]
  | cons hit rest ih =>
    simp only [Client.convertIssues]
    split
    · simp
    · exact ih _

theorem detail_eq (c : Client) (org : String) (hit : Option Issue) (name : String) (number : Int)
    (h : issueArgs hit = some (name, number)) :
    c.detail org hit =
      match c.client.pullRequestsGet org name number with
      | .ok pr => some pr
      | .error _ => none := by
  simp only [Client.detail, h]

theorem convertIssues_outcome (c : Client) (org : String) (hits : List (Option Issue))
    (acc : List (Option PullRequest)) (hwf : ∀ hit ∈ hits, issueArgs hit ≠ none) :
    (c.convertIssues org hits acc).outcome =
      .returned (acc ++ (hits.filterMap (c.detail org)).map some) := by
  induction hits generalizing acc with
  | nil => simp [Client.convertIssues]
  | cons hit rest ih =>
    have h1 := hwf hit (List.mem_cons_self _ _)
    have h2 : ∀ h ∈ rest, issueArgs h ≠ none := fun h hm => hwf h (List.mem_cons_of_mem _ hm)
    obtain ⟨⟨name, number⟩, ha⟩ := Option.ne_none_iff_exists'.mp h1
    simp only [Client.convertIssues, ha]
    rw [ih _ h2, List.filterMap_cons, detail_eq c org hit name number ha]
    cases c.client.pullRequestsGet org name number <;> simp

theorem convertIssues_panics (c : Client) (org : String) (hits : List (Option Issue))
    (acc : List (Option PullRequest)) (h : ∃ hit ∈ hits, issueArgs hit = none) :
    (c.convertIssues org hits acc).outcome = .panicked := by
  induction hits generalizing acc with
  | nil => simp at h
  | cons hit rest ih =>
    simp only [Client.convertIssues]
    split
    · rfl
    · rename_i name number ha
      obtain ⟨x, hx, hn⟩ := h
      rcases List.mem_cons.mp hx with rfl | hx
      · rw [hn] at ha; cases ha
      · exact ih _ ⟨x, hx, hn⟩


theorem search_of_ok (c : Client) (q : String) (p : Int) (h : c.searchOk q p = true) :
    c.client.searchIssues q p 100 = .ok (c.hitsOn q p) := by
  unfold Client.searchOk at h
  unfold Client.hitsOn
  cases hs : c.client.searchIssues q p 100 with
  | ok v => rfl
  | error e => rw [hs] at h; cases h

theorem range_succ_map_shift {α : Type} (f : Int → α) (p : Int) (n : Nat) :
    (List.range (n + 1)).map (fun i => f (p + (i : Nat))) =
      f p :: (List.range n).map (fun i => f (p + 1 + (i : Nat))) := by
  rw [List.range_succ_eq_map, List.map_cons, List.map_map]
  congr 1
  · simp
  · apply List.map_congr_left
    intro i _
    simp only [Function.comp, Nat.succ_eq_add_one, Nat.cast_add, Nat.cast_one]
    congr 1
    ring

theorem mergedLoop_pages (c : Client) (org q : String) (n : Nat) :
    ∀ (p : Int) (acc : List (Option PullRequest)) (fuel : Nat), n < fuel →
      (∀ i : Nat, i ≤ n → c.searchOk q (p + i) = true) →
      (∀ i : Nat, i < n → 100 ≤ (c.hitsOn q (p + i)).length) →
      (c.hitsOn q (p + n)).length < 100 →
      (∀ i : Nat, i ≤ n → ∀ hit ∈ c.hitsOn q (p + i), issueArgs hit ≠ none) →
      (c.mergedLoop org q fuel p acc).outcome =
          .returned (acc ++ ((((List.range (n + 1)).map
            fun i => c.hitsOn q (p + (i : Nat))).flatten).filterMap (c.detail org)).map some, none) ∧
        (c.mergedLoop org q fuel p acc).calls.filter Call.isSearch =
          (List.range (n + 1)).map fun i => Call.searchIssues q (p + (i : Nat)) 100 := by
  induction n with
  | zero =>
    intro p acc fuel hf hok _ hshort hwf
    obtain ⟨f, rfl⟩ : ∃ f, fuel = f + 1 := ⟨fuel - 1, by omega⟩
    have hok0 := hok 0 (le_refl _)
    have hwf0 := hwf 0 (le_refl _)
    simp only [Nat.cast_zero, add_zero] at hok0 hwf0 hshort
    have hcalls := convertIssues_calls c org (c.hitsOn q p) acc
    simp only [Client.mergedLoop, search_of_ok c q p hok0,
      convertIssues_outcome c org _ acc hwf0, if_pos hshort]
    have r1 : List.range (0 + 1) = [0] := rfl
    refine ⟨by simp [r1], ?_⟩
    simp only [List.filter_cons, Call.isSearch, if_true]
    rw [List.filter_eq_nil_iff.mpr (fun a ha => by simp [hcalls a ha])]
    simp [r1]
  | succ n ih =>
    intro p acc fuel hf hok hfull hshort hwf
    obtain ⟨f, rfl⟩ : ∃ f, fuel = f + 1 := ⟨fuel - 1, by omega⟩
    have hok0 := hok 0 (Nat.zero_le _)
    have hwf0 := hwf 0 (Nat.zero_le _)
    have hfull0 := hfull 0 (Nat.succ_pos _)
    simp only [Nat.cast_zero, add_zero] at hok0 hwf0 hfull0
    have hcalls := convertIssues_calls c org (c.hitsOn q p) acc
    have shift : ∀ i : Nat, p + 1 + (i : Int) = p + ((i + 1 : Nat) : Int) := by
      intro i; push_cast; ring
    obtain ⟨ih1, ih2⟩ := ih (p + 1)
      (acc ++ ((c.hitsOn q p).filterMap (c.detail org)).map some) f (by omega)
      (fun i hi => by rw [shift]; exact hok (i + 1) (by omega))
      (fun i hi => by rw [shift]; exact hfull (i + 1) (by omega))
      (by rw [shift]; exact hshort)
      (fun i hi => by rw [shift]; exact hwf (i + 1) (by omega))
    simp only [Client.mergedLoop, search_of_ok c q p hok0,
      convertIssues_outcome c org _ acc hwf0, if_neg (not_lt.mpr hfull0)]
    constructor
    · rw [ih1, range_succ_map_shift (fun x => c.hitsOn q x) p (n + 1)]
      simp [List.filterMap_append]
    · rw [range_succ_map_shift (fun x => Call.searchIssues q x 100) p (n + 1)]
      simp only [List.filter_cons, Call.isSearch, if_true, List.filter_append, ih2]
      rw [List.filter_eq_nil_iff.mpr (fun a ha => by simp [hcalls a ha])]
      simp


theorem reviewedLoop_pages (c : Client) (q : String) (n : Nat) :
    ∀ (p : Int) (count : Int) (fuel : Nat), n < fuel →
      (∀ i : Nat, i ≤ n → c.searchOk q (p + i) = true) →
      (∀ i : Nat, i < n → 100 ≤ (c.hitsOn q (p + i)).length) →
      (c.hitsOn q (p + n)).length < 100 →
      c.reviewedLoop q fuel p count =
        ⟨(List.range (n + 1)).map fun i => Call.searchIssues q (p + (i : Nat)) 100,
          .returned (count + (((List.range (n + 1)).map
            fun i => c.hitsOn q (p + (i : Nat))).flatten).length, none)⟩ := by
  induction n with
  | zero =>
    intro p count fuel hf hok _ hshort
    obtain ⟨f, rfl⟩ : ∃ f, fuel = f + 1 := ⟨fuel - 1, by omega⟩
    have hok0 := hok 0 (le_refl _)
    simp only [Nat.cast_zero, add_zero] at hok0 hshort
    have r1 : List.range (0 + 1) = [0] := rfl
    simp [Client.reviewedLoop, search_of_ok c q p hok0, if_pos hshort, r1]
  | succ n ih =>
    intro p count fuel hf hok hfull hshort
    obtain ⟨f, rfl⟩ : ∃ f, fuel = f + 1 := ⟨fuel - 1, by omega⟩
    have hok0 := hok 0 (Nat.zero_le _)
    have hfull0 := hfull 0 (Nat.succ_pos _)
    simp only [Nat.cast_zero, add_zero] at hok0 hfull0
    have shift : ∀ i : Nat, p + 1 + (i : Int) = p + ((i + 1 : Nat) : Int) := by
      intro i; push_cast; ring
    have ih1 := ih (p + 1) (count + (c.hitsOn q p).length) f (by omega)
      (fun i hi => by rw [shift]; exact hok (i + 1) (by omega))
      (fun i hi => by rw [shift]; exact hfull (i + 1) (by omega))
      (by rw [shift]; exact hshort)
    simp only [Client.reviewedLoop, search_of_ok c q p hok0, if_neg (not_lt.mpr hfull0), ih1]
    rw [range_succ_map_shift (fun x => c.hitsOn q x) p (n + 1),
      range_succ_map_shift (fun x => Call.searchIssues q x 100) p (n + 1)]
    simp only [List.flatten_cons, List.length_append, Nat.cast_add, add_assoc]

/-- Pages 1 to `k` in the form the loops walk them: from page 1, `k - 1` full pages and then
the short one. -/
theorem Client.FirstShortPage.from_one {c : Client} {q : String} {k : Nat} (h : c.FirstShortPage q k) :
    (∀ i : Nat, i ≤ k - 1 → c.searchOk q (1 + (i : Int)) = true) ∧
      (∀ i : Nat, i < k - 1 → 100 ≤ (c.hitsOn q (1 + (i : Int))).length) ∧
      (c.hitsOn q (1 + ((k - 1 : Nat) : Int))).length < 100 := by
  obtain ⟨h0, h1, h2, h3⟩ := h
  refine ⟨fun i hi => ?_, fun i hi => ?_, ?_⟩
  · rw [add_comm]; exact h1 i (by omega)
  · rw [add_comm]; exact h2 i hi
  · have : (1 : Int) + ((k - 1 : Nat) : Int) = (k : Int) := by omega
    rw [this]; exact h3

theorem hitsUpTo_eq (c : Client) (q : String) (k : Nat) :
    c.hitsUpTo q k = ((List.range k).map fun i => c.hitsOn q (1 + (i : Nat))).flatten := by
  simp only [Client.hitsUpTo, add_comm]

theorem pageRequests_eq (q : String) (k : Nat) :
    pageRequests q k = (List.range k).map fun i => Call.searchIssues q (1 + (i : Nat)) 100 := by
  simp only [pageRequests, add_comm]

theorem mem_hitsUpTo {c : Client} {q : String} {k i : Nat} (hi : i < k) {hit : Option Issue}
    (h : hit ∈ c.hitsOn q (1 + (i : Int))) : hit ∈ c.hitsUpTo q k := by
  rw [hitsUpTo_eq]
  simp only [List.mem_flatten, List.mem_map, List.mem_range]
  exact ⟨_, ⟨i, hi, rfl⟩, h⟩

/-- What `getMergedPRs` does on a search whose first short page is page `k`, when every hit
carries a repository name and a number. -/
theorem getMergedPRs_pages (c : Client) (org : String) (period : TimePeriod) (k fuel : Nat)
    (hk : c.FirstShortPage (c.mergedQuery org period) k)
    (hwf : ∀ hit ∈ c.hitsUpTo (c.mergedQuery org period) k, issueArgs hit ≠ none)
    (hf : k ≤ fuel) :
    (c.getMergedPRs fuel org period).outcome =
        .returned (((c.hitsUpTo (c.mergedQuery org period) k).filterMap (c.detail org)).map some,
          none) ∧
      (c.getMergedPRs fuel org period).calls.filter Call.isSearch =
        pageRequests (c.mergedQuery org period) k := by
  obtain ⟨a, b, d⟩ := hk.from_one
  have h0 := hk.1
  have hk1 : k - 1 + 1 = k := by omega
  have := mergedLoop_pages c org (c.mergedQuery org period) (k - 1) 1 [] fuel (by omega) a b d
    (fun i hi hit hm => hwf hit (mem_hitsUpTo (by omega) hm))
  rw [hk1] at this
  rw [hitsUpTo_eq, pageRequests_eq]
  simpa [Client.getMergedPRs] using this

/-- What `getReviewedPRs` does on a search whose first short page is page `k`. -/
theorem getReviewedPRs_pages (c : Client) (org : String) (period : TimePeriod) (k fuel : Nat)
    (hk : c.FirstShortPage (c.reviewedQuery org period) k) (hf : k ≤ fuel) :
    c.getReviewedPRs fuel org period =
      ⟨pageRequests (c.reviewedQuery org period) k,
        .returned (((c.hitsUpTo (c.reviewedQuery org period) k).length : Int), none)⟩ := by
  obtain ⟨a, b, d⟩ := hk.from_one
  have h0 := hk.1
  have hk1 : k - 1 + 1 = k := by omega
  have := reviewedLoop_pages c (c.reviewedQuery org period) (k - 1) 1 0 fuel (by omega) a b d
  rw [hk1] at this
  rw [hitsUpTo_eq, pageRequests_eq]
  simpa [Client.getReviewedPRs] using this


/-! ## The reducer and the orchestrator -/

theorem wrapInt_add_left (a b : Int) : wrapInt (wrapInt a + b) = wrapInt (a + b) := by
  simp only [wrapInt]
  omega

theorem wrapInt_of_range (a : Int) (h0 : -9223372036854775808 ≤ a)
    (h1 : a < 9223372036854775808) : wrapInt a = a := by
  simp only [wrapInt]
  omega

theorem foldl_totals (prs : List (Option PullRequest)) (a d : Int) :
    prs.foldl
      (fun (t : Int × Int) pr =>
        (wrapInt (t.1 + PullRequest.GetAdditions pr), wrapInt (t.2 + PullRequest.GetDeletions pr)))
      (wrapInt a, wrapInt d) =
    (wrapInt (a + (prs.map PullRequest.GetAdditions).sum),
      wrapInt (d + (prs.map PullRequest.GetDeletions).sum)) := by
  induction prs generalizing a d with
  | nil => simp
  | cons pr rest ih =>
    simp only [List.foldl_cons, List.map_cons, List.sum_cons, wrapInt_add_left]
    rw [ih]
    simp only [add_assoc]

theorem getLinesChangedInPRs_eq (prs : List (Option PullRequest)) :
    getLinesChangedInPRs prs =
      (intSum (prs.map PullRequest.GetAdditions), intSum (prs.map PullRequest.GetDeletions),
        none) := by
  have h0 : ((0 : Int), (0 : Int)) = (wrapInt 0, wrapInt 0) := by
    simp [wrapInt]
  simp only [getLinesChangedInPRs, intSum, h0, foldl_totals, zero_add]

/-- The statistics `GetStats` returns when both searches reach a short page and every merged
hit carries a repository name and a number: the merged count is the number of details
resolved. -/
theorem GetStats_returns (c : Client) (org : String) (period : TimePeriod) (km kr fuel : Nat)
    (hM : c.FirstShortPage (c.mergedQuery org period) km)
    (hR : c.FirstShortPage (c.reviewedQuery org period) kr)
    (hwf : ∀ hit ∈ c.hitsUpTo (c.mergedQuery org period) km, issueArgs hit ≠ none)
    (hfm : km ≤ fuel) (hfr : kr ≤ fuel) :
    (c.GetStats fuel org period).outcome =
      .returned
        (some
          { PRsMerged :=
              ((c.hitsUpTo (c.mergedQuery org period) km).filterMap (c.detail org)).length,
            LinesAdded := intSum
              (((c.hitsUpTo (c.mergedQuery org period) km).filterMap (c.detail org)).map
                fun pr => pr.Additions.getD 0),
            LinesDeleted := intSum
              (((c.hitsUpTo (c.mergedQuery org period) km).filterMap (c.detail org)).map
                fun pr => pr.Deletions.getD 0),
            PRsReviewed := (c.hitsUpTo (c.reviewedQuery org period) kr).length,
            Period := period, Organization := org },
          none) := by
  have h1 := (getMergedPRs_pages c org period km fuel hM hwf hfm).1
  have h2 := getReviewedPRs_pages c org period kr fuel hR hfr
  simp only [Client.GetStats, h1, getLinesChangedInPRs_eq, h2, List.length_map, List.map_map]
  rfl


/-! ## Errors and termination -/

theorem searchFails_of_not_search (c : Client) (call : Call) (h : call.isSearch = false) :
    c.searchFails call = false := by
  cases call with
  | searchIssues q p pp => simp [Call.isSearch] at h
  | pullRequestsGet o r n => rfl

theorem mergedLoop_error_iff (c : Client) (org q : String) (fuel : Nat) :
    ∀ (p : Int) (acc : List (Option PullRequest)),
      ((c.mergedLoop org q fuel p acc).returnsError ↔
        ∃ call ∈ (c.mergedLoop org q fuel p acc).calls, c.searchFails call = true) := by
  induction fuel with
  | zero => intro p acc; simp [Client.mergedLoop, Run.returnsError]
  | succ f ih =>
    intro p acc
    have hinner := convertIssues_calls c org
    simp only [Client.mergedLoop]
    cases hs : c.client.searchIssues q p 100 with
    | error e =>
      simp only [Run.returnsError]
      constructor
      · intro _
        exact ⟨_, List.mem_singleton.mpr rfl, by simp [Client.searchFails, hs]⟩
      · intro _
        exact ⟨_, _, rfl⟩
    | ok issues =>
      have h0 : c.searchFails (Call.searchIssues q p 100) = false := by
        simp [Client.searchFails, hs]
      have h1 : ∀ call ∈ (c.convertIssues org issues acc).calls, c.searchFails call = false :=
        fun call hm => searchFails_of_not_search c call (hinner issues acc call hm)
      simp only []
      split
      · simp only [Run.returnsError, List.mem_cons]
        constructor
        · rintro ⟨v, e, h⟩; cases h
        · rintro ⟨call, rfl | hm, hf⟩
          · rw [h0] at hf; cases hf
          · rw [h1 call hm] at hf; cases hf
      · simp only [Run.returnsError, List.mem_cons]
        constructor
        · rintro ⟨v, e, h⟩; cases h
        · rintro ⟨call, rfl | hm, hf⟩
          · rw [h0] at hf; cases hf
          · rw [h1 call hm] at hf; cases hf
      · split
        · simp only [Run.returnsError, List.mem_cons]
          constructor
          · rintro ⟨v, e, h⟩; cases h
          · rintro ⟨call, rfl | hm, hf⟩
            · rw [h0] at hf; cases hf
            · rw [h1 call hm] at hf; cases hf
        · rename_i result _ _
          have := ih (p + 1) result
          simp only [Run.returnsError] at this ⊢
          rw [this]
          simp only [List.mem_cons, List.mem_append]
          constructor
          · rintro ⟨call, hm, hf⟩
            exact ⟨call, Or.inr hm, hf⟩
          · rintro ⟨call, (rfl | hm) | hm, hf⟩
            · rw [h0] at hf; cases hf
            · rw [h1 call hm] at hf; cases hf
            · exact ⟨call, hm, hf⟩

theorem reviewedLoop_error_iff (c : Client) (q : String) (fuel : Nat) :
    ∀ (p : Int) (count : Int),
      ((c.reviewedLoop q fuel p count).returnsError ↔
        ∃ call ∈ (c.reviewedLoop q fuel p count).calls, c.searchFails call = true) := by
  induction fuel with
  | zero => intro p count; simp [Client.reviewedLoop, Run.returnsError]
  | succ f ih =>
    intro p count
    simp only [Client.reviewedLoop]
    cases hs : c.client.searchIssues q p 100 with
    | error e =>
      simp only [Run.returnsError]
      constructor
      · intro _
        exact ⟨_, List.mem_singleton.mpr rfl, by simp [Client.searchFails, hs]⟩
      · intro _
        exact ⟨_, _, rfl⟩
    | ok issues =>
      have h0 : c.searchFails (Call.searchIssues q p 100) = false := by
        simp [Client.searchFails, hs]
      simp only []
      split
      · simp only [Run.returnsError, List.mem_singleton]
        constructor
        · rintro ⟨v, e, h⟩; cases h
        · rintro ⟨call, rfl, hf⟩
          rw [h0] at hf; cases hf
      · have := ih (p + 1) (count + issues.length)
        simp only [Run.returnsError] at this ⊢
        rw [this]
        simp only [List.mem_cons]
        constructor
        · rintro ⟨call, hm, hf⟩
          exact ⟨call, Or.inr hm, hf⟩
        · rintro ⟨call, rfl | hm, hf⟩
          · rw [h0] at hf; cases hf
          · exact ⟨call, hm, hf⟩


theorem GetStats_error_iff (c : Client) (fuel : Nat) (org : String) (period : TimePeriod) :
    (c.GetStats fuel org period).returnsError ↔
      ∃ call ∈ (c.GetStats fuel org period).calls, c.searchFails call = true := by
  have hm := mergedLoop_error_iff c org (c.mergedQuery org period) fuel 1 []
  have hr := reviewedLoop_error_iff c (c.reviewedQuery org period) fuel 1 0
  simp only [Run.returnsError] at hm hr ⊢
  simp only [Client.GetStats, getLinesChangedInPRs_eq, Client.getMergedPRs,
    Client.getReviewedPRs] at hm hr ⊢
  cases h1 : (c.mergedLoop org (c.mergedQuery org period) fuel 1 []).outcome with
  | panicked =>
    rw [h1] at hm
    simp only []
    rw [← hm]
    constructor
    · rintro ⟨v, e, h⟩; cases h
    · rintro ⟨v, e, h⟩; cases h
  | running =>
    rw [h1] at hm
    simp only []
    rw [← hm]
    constructor
    · rintro ⟨v, e, h⟩; cases h
    · rintro ⟨v, e, h⟩; cases h
  | returned v =>
    obtain ⟨prs, err⟩ := v
    rw [h1] at hm
    cases err with
    | some e =>
      simp only []
      rw [← hm]
      exact ⟨fun _ => ⟨_, _, rfl⟩, fun _ => ⟨_, _, rfl⟩⟩
    | none =>
      have hno : ∀ call ∈ (c.mergedLoop org (c.mergedQuery org period) fuel 1 []).calls,
          c.searchFails call ≠ true := by
        intro call hmem hf
        obtain ⟨v, e, h⟩ := hm.mpr ⟨call, hmem, hf⟩
        cases h
      simp only []
      cases h2 : (c.reviewedLoop (c.reviewedQuery org period) fuel 1 0).outcome with
      | panicked =>
        rw [h2] at hr
        simp only [List.mem_append]
        constructor
        · rintro ⟨v, e, h⟩; cases h
        · rintro ⟨call, hmem | hmem, hf⟩
          · exact absurd hf (hno call hmem)
          · obtain ⟨v, e, h⟩ := hr.mpr ⟨call, hmem, hf⟩
            cases h
      | running =>
        rw [h2] at hr
        simp only [List.mem_append]
        constructor
        · rintro ⟨v, e, h⟩; cases h
        · rintro ⟨call, hmem | hmem, hf⟩
          · exact absurd hf (hno call hmem)
          · obtain ⟨v, e, h⟩ := hr.mpr ⟨call, hmem, hf⟩
            cases h
      | returned w =>
        obtain ⟨n, err⟩ := w
        rw [h2] at hr
        cases err with
        | some e =>
          simp only [List.mem_append]
          constructor
          · intro _
            obtain ⟨call, hmem, hf⟩ := hr.mp ⟨_, _, rfl⟩
            exact ⟨call, Or.inr hmem, hf⟩
          · intro _
            exact ⟨_, _, rfl⟩
        | none =>
          simp only [List.mem_append]
          constructor
          · rintro ⟨v, e, h⟩; cases h
          · rintro ⟨call, hmem | hmem, hf⟩
            · exact absurd hf (hno call hmem)
            · obtain ⟨v, e, h⟩ := hr.mpr ⟨call, hmem, hf⟩
              cases h

theorem GetStats_error_nil (c : Client) (fuel : Nat) (org : String) (period : TimePeriod)
    (s : Option Stats) (err : Error)
    (h : (c.GetStats fuel org period).outcome = .returned (s, some err)) : s = none := by
  simp only [Client.GetStats, getLinesChangedInPRs_eq] at h
  split at h
  · cases h
  · cases h
  · simp only [Outcome.returned.injEq, Prod.mk.injEq] at h
    exact h.1.symm
  · split at h
    · cases h
    · cases h
    · simp only [Outcome.returned.injEq, Prod.mk.injEq] at h
      exact h.1.symm
    · simp only [Outcome.returned.injEq, Prod.mk.injEq] at h
      exact absurd h.2 (by simp)

theorem GetStats_ok_stats (c : Client) (fuel : Nat) (org : String) (period : TimePeriod)
    (s : Option Stats)
    (h : (c.GetStats fuel org period).outcome = .returned (s, none)) : s ≠ none := by
  simp only [Client.GetStats, getLinesChangedInPRs_eq] at h
  split at h
  · cases h
  · cases h
  · simp only [Outcome.returned.injEq, Prod.mk.injEq] at h
    exact absurd h.2 (by simp)
  · split at h
    · cases h
    · cases h
    · simp only [Outcome.returned.injEq, Prod.mk.injEq] at h
      exact absurd h.2 (by simp)
    · simp only [Outcome.returned.injEq, Prod.mk.injEq] at h
      rw [← h.1]; simp

theorem hitsOn_of_fail (c : Client) (q : String) (p : Int) (h : c.searchOk q p = false) :
    c.hitsOn q p = [] := by
  unfold Client.searchOk at h
  unfold Client.hitsOn
  cases hs : c.client.searchIssues q p 100 with
  | ok v => rw [hs] at h; cases h
  | error e => rfl

theorem mergedLoop_ends (c : Client) (org q : String) (n : Nat) :
    ∀ (p : Int) (acc : List (Option PullRequest)) (fuel : Nat), n < fuel →
      (c.hitsOn q (p + n)).length < 100 →
      (c.mergedLoop org q fuel p acc).outcome ≠ .running := by
  induction n with
  | zero =>
    intro p acc fuel hf hshort
    obtain ⟨f, rfl⟩ : ∃ f, fuel = f + 1 := ⟨fuel - 1, by omega⟩
    simp only [Nat.cast_zero, add_zero, Client.hitsOn] at hshort
    simp only [Client.mergedLoop]
    cases hs : c.client.searchIssues q p 100 with
    | error e => simp
    | ok issues =>
      rw [hs] at hshort
      simp only []
      split
      · simp
      · rename_i h; exact absurd h (convertIssues_not_running c org issues acc)
      · rw [if_pos hshort]; simp
  | succ n ih =>
    intro p acc fuel hf hshort
    obtain ⟨f, rfl⟩ : ∃ f, fuel = f + 1 := ⟨fuel - 1, by omega⟩
    have shift : p + ((n + 1 : Nat) : Int) = p + 1 + (n : Int) := by push_cast; ring
    rw [shift] at hshort
    simp only [Client.mergedLoop]
    cases hs : c.client.searchIssues q p 100 with
    | error e => simp
    | ok issues =>
      simp only []
      split
      · simp
      · rename_i h; exact absurd h (convertIssues_not_running c org issues acc)
      · split
        · simp
        · exact ih (p + 1) _ f (by omega) hshort

theorem reviewedLoop_ends (c : Client) (q : String) (n : Nat) :
    ∀ (p : Int) (count : Int) (fuel : Nat), n < fuel →
      (c.hitsOn q (p + n)).length < 100 →
      (c.reviewedLoop q fuel p count).outcome ≠ .running := by
  induction n with
  | zero =>
    intro p count fuel hf hshort
    obtain ⟨f, rfl⟩ : ∃ f, fuel = f + 1 := ⟨fuel - 1, by omega⟩
    simp only [Nat.cast_zero, add_zero, Client.hitsOn] at hshort
    simp only [Client.reviewedLoop]
    cases hs : c.client.searchIssues q p 100 with
    | error e => simp
    | ok issues =>
      rw [hs] at hshort
      simp only []
      rw [if_pos hshort]; simp
  | succ n ih =>
    intro p count fuel hf hshort
    obtain ⟨f, rfl⟩ : ∃ f, fuel = f + 1 := ⟨fuel - 1, by omega⟩
    have shift : p + ((n + 1 : Nat) : Int) = p + 1 + (n : Int) := by push_cast; ring
    rw [shift] at hshort
    simp only [Client.reviewedLoop]
    cases hs : c.client.searchIssues q p 100 with
    | error e => simp
    | ok issues =>
      simp only []
      split
      · simp
      · exact ih (p + 1) _ f (by omega) hshort

theorem Terminates.short {c : Client} {q : String} (h : c.Terminates q) :
    ∃ n : Nat, (c.hitsOn q (1 + (n : Int))).length < 100 := by
  obtain ⟨n, h | h⟩ := h
  · exact ⟨n, by rw [add_comm, hitsOn_of_fail c q _ h]; simp⟩
  · exact ⟨n, by rw [add_comm]; exact h⟩

theorem GetStats_ends (c : Client) (org : String) (period : TimePeriod)
    (hM : c.Terminates (c.mergedQuery org period))
    (hR : c.Terminates (c.reviewedQuery org period)) :
    ∃ fuel0 : Nat, ∀ fuel, fuel0 ≤ fuel → (c.GetStats fuel org period).outcome ≠ .running := by
  obtain ⟨n, hn⟩ := Terminates.short hM
  obtain ⟨m, hm⟩ := Terminates.short hR
  refine ⟨n + m + 1, fun fuel hf => ?_⟩
  have h1 := mergedLoop_ends c org _ n 1 [] fuel (by omega) hn
  have h2 := reviewedLoop_ends c _ m 1 0 fuel (by omega) hm
  simp only [Client.GetStats, getLinesChangedInPRs_eq, Client.getMergedPRs,
    Client.getReviewedPRs] at h1 h2 ⊢
  split
  · simp
  · rename_i h; exact absurd h h1
  · simp
  · split
    · simp
    · rename_i h; exact absurd h h2
    · simp
    · simp


/-! ## A pagination that ends in a failed request or in a nil field -/

theorem search_of_fail (c : Client) (q : String) (p : Int) (h : c.searchOk q p = false) :
    ∃ e, c.client.searchIssues q p 100 = .error e := by
  unfold Client.searchOk at h
  cases hs : c.client.searchIssues q p 100 with
  | ok v => rw [hs] at h; cases h
  | error e => exact ⟨e, rfl⟩

theorem searchOk_of_error (c : Client) (q : String) (p : Int) (e : Error)
    (h : c.client.searchIssues q p 100 = .error e) : c.searchOk q p = false := by
  simp [Client.searchOk, h]

theorem mergedLoop_fail (c : Client) (org q : String) (n : Nat) :
    ∀ (p : Int) (acc : List (Option PullRequest)) (fuel : Nat) (e : Error), n < fuel →
      (∀ i : Nat, i < n → c.searchOk q (p + i) = true) →
      (∀ i : Nat, i < n → 100 ≤ (c.hitsOn q (p + i)).length) →
      (∀ i : Nat, i < n → ∀ hit ∈ c.hitsOn q (p + i), issueArgs hit ≠ none) →
      c.client.searchIssues q (p + n) 100 = .error e →
      (c.mergedLoop org q fuel p acc).outcome = .returned ([], some e) ∧
        (c.mergedLoop org q fuel p acc).calls.filter Call.isSearch =
          (List.range (n + 1)).map fun i => Call.searchIssues q (p + (i : Nat)) 100 := by
  induction n with
  | zero =>
    intro p acc fuel e hf _ _ _ he
    obtain ⟨f, rfl⟩ : ∃ f, fuel = f + 1 := ⟨fuel - 1, by omega⟩
    simp only [Nat.cast_zero, add_zero] at he
    have r1 : List.range (0 + 1) = [0] := rfl
    simp [Client.mergedLoop, he, r1, Call.isSearch]
  | succ n ih =>
    intro p acc fuel e hf hok hfull hwf he
    obtain ⟨f, rfl⟩ : ∃ f, fuel = f + 1 := ⟨fuel - 1, by omega⟩
    have hok0 := hok 0 (Nat.succ_pos _)
    have hwf0 := hwf 0 (Nat.succ_pos _)
    have hfull0 := hfull 0 (Nat.succ_pos _)
    simp only [Nat.cast_zero, add_zero] at hok0 hwf0 hfull0
    have hcalls := convertIssues_calls c org (c.hitsOn q p) acc
    have shift : ∀ i : Nat, p + 1 + (i : Int) = p + ((i + 1 : Nat) : Int) := by
      intro i; push_cast; ring
    obtain ⟨ih1, ih2⟩ := ih (p + 1)
      (acc ++ ((c.hitsOn q p).filterMap (c.detail org)).map some) f e (by omega)
      (fun i hi => by rw [shift]; exact hok (i + 1) (by omega))
      (fun i hi => by rw [shift]; exact hfull (i + 1) (by omega))
      (fun i hi => by rw [shift]; exact hwf (i + 1) (by omega))
      (by rw [shift]; exact he)
    simp only [Client.mergedLoop, search_of_ok c q p hok0,
      convertIssues_outcome c org _ acc hwf0, if_neg (not_lt.mpr hfull0)]
    constructor
    · rw [ih1]
    · rw [range_succ_map_shift (fun x => Call.searchIssues q x 100) p (n + 1)]
      simp only [List.filter_cons, Call.isSearch, if_true, List.filter_append, ih2]
      rw [List.filter_eq_nil_iff.mpr (fun a ha => by simp [hcalls a ha])]
      simp

theorem mergedLoop_panics_here (c : Client) (org q : String) (f : Nat) (p : Int)
    (acc : List (Option PullRequest)) (h : ∃ hit ∈ c.hitsOn q p, issueArgs hit = none) :
    (c.mergedLoop org q (f + 1) p acc).outcome = .panicked := by
  simp only [Client.hitsOn] at h
  simp only [Client.mergedLoop]
  cases hs : c.client.searchIssues q p 100 with
  | error e => rw [hs] at h; simp at h
  | ok issues =>
    rw [hs] at h
    simp only [convertIssues_panics c org issues acc h]

theorem mergedLoop_panics (c : Client) (org q : String) (n : Nat) :
    ∀ (p : Int) (acc : List (Option PullRequest)) (fuel : Nat), n < fuel →
      (∀ i : Nat, i < n → c.searchOk q (p + i) = true) →
      (∀ i : Nat, i < n → 100 ≤ (c.hitsOn q (p + i)).length) →
      (∃ i : Nat, i ≤ n ∧ ∃ hit ∈ c.hitsOn q (p + i), issueArgs hit = none) →
      (c.mergedLoop org q fuel p acc).outcome = .panicked := by
  induction n with
  | zero =>
    intro p acc fuel hf _ _ h
    obtain ⟨f, rfl⟩ : ∃ f, fuel = f + 1 := ⟨fuel - 1, by omega⟩
    obtain ⟨i, hi, hit, hm, hn⟩ := h
    obtain rfl : i = 0 := by omega
    simp only [Nat.cast_zero, add_zero] at hm
    exact mergedLoop_panics_here c org q f p acc ⟨hit, hm, hn⟩
  | succ n ih =>
    intro p acc fuel hf hok hfull h
    obtain ⟨f, rfl⟩ : ∃ f, fuel = f + 1 := ⟨fuel - 1, by omega⟩
    by_cases hw : ∃ hit ∈ c.hitsOn q p, issueArgs hit = none
    · exact mergedLoop_panics_here c org q f p acc hw
    · have hwf0 : ∀ hit ∈ c.hitsOn q p, issueArgs hit ≠ none :=
        fun hit hm hn => hw ⟨hit, hm, hn⟩
      have hok0 := hok 0 (Nat.succ_pos _)
      have hfull0 := hfull 0 (Nat.succ_pos _)
      simp only [Nat.cast_zero, add_zero] at hok0 hfull0
      have shift : ∀ i : Nat, p + 1 + (i : Int) = p + ((i + 1 : Nat) : Int) := by
        intro i; push_cast; ring
      obtain ⟨i, hi, hit, hm, hn⟩ := h
      have hi0 : i ≠ 0 := by
        rintro rfl
        simp only [Nat.cast_zero, add_zero] at hm
        exact hw ⟨hit, hm, hn⟩
      obtain ⟨j, rfl⟩ : ∃ j, i = j + 1 := ⟨i - 1, by omega⟩
      have ih1 := ih (p + 1)
        (acc ++ ((c.hitsOn q p).filterMap (c.detail org)).map some) f (by omega)
        (fun i hi => by rw [shift]; exact hok (i + 1) (by omega))
        (fun i hi => by rw [shift]; exact hfull (i + 1) (by omega))
        ⟨j, by omega, hit, by rw [shift]; exact hm, hn⟩
      simp only [Client.mergedLoop, search_of_ok c q p hok0,
        convertIssues_outcome c org _ acc hwf0, if_neg (not_lt.mpr hfull0)]
      exact ih1

theorem reviewedLoop_fail (c : Client) (q : String) (n : Nat) :
    ∀ (p : Int) (count : Int) (fuel : Nat) (e : Error), n < fuel →
      (∀ i : Nat, i < n → c.searchOk q (p + i) = true) →
      (∀ i : Nat, i < n → 100 ≤ (c.hitsOn q (p + i)).length) →
      c.client.searchIssues q (p + n) 100 = .error e →
      c.reviewedLoop q fuel p count =
        ⟨(List.range (n + 1)).map fun i => Call.searchIssues q (p + (i : Nat)) 100,
          .returned (0, some e)⟩ := by
  induction n with
  | zero =>
    intro p count fuel e hf _ _ he
    obtain ⟨f, rfl⟩ : ∃ f, fuel = f + 1 := ⟨fuel - 1, by omega⟩
    simp only [Nat.cast_zero, add_zero] at he
    have r1 : List.range (0 + 1) = [0] := rfl
    simp [Client.reviewedLoop, he, r1]
  | succ n ih =>
    intro p count fuel e hf hok hfull he
    obtain ⟨f, rfl⟩ : ∃ f, fuel = f + 1 := ⟨fuel - 1, by omega⟩
    have hok0 := hok 0 (Nat.succ_pos _)
    have hfull0 := hfull 0 (Nat.succ_pos _)
    simp only [Nat.cast_zero, add_zero] at hok0 hfull0
    have shift : ∀ i : Nat, p + 1 + (i : Int) = p + ((i + 1 : Nat) : Int) := by
      intro i; push_cast; ring
    have ih1 := ih (p + 1) (count + (c.hitsOn q p).length) f e (by omega)
      (fun i hi => by rw [shift]; exact hok (i + 1) (by omega))
      (fun i hi => by rw [shift]; exact hfull (i + 1) (by omega))
      (by rw [shift]; exact he)
    simp only [Client.reviewedLoop, search_of_ok c q p hok0, if_neg (not_lt.mpr hfull0), ih1]
    rw [range_succ_map_shift (fun x => Call.searchIssues q x 100) p (n + 1)]

/-- The end page in the form the loops walk the pages: from page 1, `k - 1` full pages whose
requests succeed, and then page `k`. -/
theorem Client.EndPage.walk {c : Client} {q : String} {k : Nat} (h : c.EndPage q k) :
    (∀ i : Nat, i < k - 1 → c.searchOk q (1 + (i : Int)) = true) ∧
      (∀ i : Nat, i < k - 1 → 100 ≤ (c.hitsOn q (1 + (i : Int))).length) ∧
      (1 : Int) + ((k - 1 : Nat) : Int) = (k : Int) := by
  obtain ⟨h0, h1, _⟩ := h
  refine ⟨fun i hi => ?_, fun i hi => ?_, by omega⟩
  · rw [add_comm]; exact (h1 i hi).1
  · rw [add_comm]; exact (h1 i hi).2

/-- An end page whose request succeeds is the first short page. -/
theorem Client.EndPage.firstShort {c : Client} {q : String} {k : Nat} (h : c.EndPage q k)
    (hok : c.searchOk q (k : Int) = true) : c.FirstShortPage q k := by
  obtain ⟨h0, h1, h2⟩ := h
  refine ⟨h0, fun i hi => ?_, fun i hi => (h1 i hi).2, ?_⟩
  · by_cases hlt : i < k - 1
    · exact (h1 i hlt).1
    · have : ((i : Int) + 1) = (k : Int) := by omega
      rw [this]; exact hok
  · rcases h2 with h2 | h2
    · rw [hok] at h2; cases h2
    · exact h2

/-- What `getMergedPRs` does on a search whose request for page `k` fails, after `k - 1` full
pages of hits that carry a repository name and a number. -/
theorem getMergedPRs_fail (c : Client) (org : String) (period : TimePeriod) (k fuel : Nat)
    (e : Error) (hk : c.EndPage (c.mergedQuery org period) k)
    (hwf : ∀ hit ∈ c.hitsUpTo (c.mergedQuery org period) k, issueArgs hit ≠ none)
    (he : c.client.searchIssues (c.mergedQuery org period) (k : Int) 100 = .error e)
    (hf : k ≤ fuel) :
    (c.getMergedPRs fuel org period).outcome = .returned ([], some e) ∧
      (c.getMergedPRs fuel org period).calls.filter Call.isSearch =
        pageRequests (c.mergedQuery org period) k := by
  obtain ⟨a, b, d⟩ := hk.walk
  have h0 := hk.1
  have hk1 : k - 1 + 1 = k := by omega
  have := mergedLoop_fail c org (c.mergedQuery org period) (k - 1) 1 [] fuel e (by omega) a b
    (fun i hi hit hm => hwf hit (mem_hitsUpTo (by omega) hm)) (by rw [d]; exact he)
  rw [hk1] at this
  rw [pageRequests_eq]
  simpa [Client.getMergedPRs] using this

/-- A hit without a repository name or a number on the pages up to the end page makes
`getMergedPRs` panic. -/
theorem getMergedPRs_panics (c : Client) (org : String) (period : TimePeriod) (k fuel : Nat)
    (hk : c.EndPage (c.mergedQuery org period) k)
    (hnil : ∃ hit ∈ c.hitsUpTo (c.mergedQuery org period) k, issueArgs hit = none)
    (hf : k ≤ fuel) :
    (c.getMergedPRs fuel org period).outcome = .panicked := by
  obtain ⟨a, b, _⟩ := hk.walk
  have h0 := hk.1
  obtain ⟨hit, hm, hn⟩ := hnil
  rw [hitsUpTo_eq] at hm
  simp only [List.mem_flatten, List.mem_map, List.mem_range] at hm
  obtain ⟨l, ⟨i, hi, rfl⟩, hm⟩ := hm
  exact mergedLoop_panics c org (c.mergedQuery org period) (k - 1) 1 [] fuel (by omega) a b
    ⟨i, by omega, hit, hm, hn⟩

/-- What `getReviewedPRs` does on a search whose request for page `k` fails, after `k - 1`
full pages. -/
theorem getReviewedPRs_fail (c : Client) (org : String) (period : TimePeriod) (k fuel : Nat)
    (e : Error) (hk : c.EndPage (c.reviewedQuery org period) k)
    (he : c.client.searchIssues (c.reviewedQuery org period) (k : Int) 100 = .error e)
    (hf : k ≤ fuel) :
    c.getReviewedPRs fuel org period =
      ⟨pageRequests (c.reviewedQuery org period) k, .returned (0, some e)⟩ := by
  obtain ⟨a, b, d⟩ := hk.walk
  have h0 := hk.1
  have hk1 : k - 1 + 1 = k := by omega
  have := reviewedLoop_fail c (c.reviewedQuery org period) (k - 1) 1 0 fuel e (by omega) a b
    (by rw [d]; exact he)
  rw [hk1] at this
  rw [pageRequests_eq]
  simpa [Client.getReviewedPRs] using this


/-! ## Pages served from a fixed list -/

theorem serves_page {c : Client} {q : String} {hits : List (Option Issue)}
    (h : c.Serves q hits) (i : Nat) :
    c.searchOk q ((i : Int) + 1) = true ∧
      c.hitsOn q ((i : Int) + 1) = (hits.drop (100 * i)).take 100 := by
  simp only [Client.searchOk, Client.hitsOn, h i, and_self]

theorem chunks_flatten {α : Type} (l : List α) (k : Nat) :
    ((List.range k).map fun i => (l.drop (100 * i)).take 100).flatten = l.take (100 * k) := by
  induction k with
  | zero => simp
  | succ k ih =>
    rw [List.range_succ, List.map_append, List.flatten_append, ih]
    simp only [List.map_cons, List.map_nil, List.flatten_cons, List.flatten_nil,
      List.append_nil]
    rw [show 100 * (k + 1) = 100 * k + 100 by ring, List.take_add]

theorem serves_firstShort {c : Client} {q : String} {hits : List (Option Issue)}
    (h : c.Serves q hits) : c.FirstShortPage q (hits.length / 100 + 1) := by
  refine ⟨Nat.succ_pos _, fun i _ => (serves_page h i).1, fun i hi => ?_, ?_⟩
  · rw [(serves_page h i).2, List.length_take, List.length_drop]
    simp only [Nat.add_sub_cancel] at hi
    omega
  · have e : ((hits.length / 100 + 1 : Nat) : Int) = ((hits.length / 100 : Nat) : Int) + 1 := by
      push_cast; rfl
    rw [e, (serves_page h _).2, List.length_take, List.length_drop]
    omega

theorem serves_hitsUpTo {c : Client} {q : String} {hits : List (Option Issue)}
    (h : c.Serves q hits) : c.hitsUpTo q (hits.length / 100 + 1) = hits := by
  have e : (fun (i : Nat) => c.hitsOn q ((i : Int) + 1))
      = fun (i : Nat) => (hits.drop (100 * i)).take 100 :=
    funext fun i => (serves_page h i).2
  rw [Client.hitsUpTo, e, chunks_flatten]
  exact List.take_of_length_le (by omega)

/-- On a remote that serves `N` hits in pages of 100 and never fails, `getReviewedPRs` returns
the count `N` after exactly `N / 100 + 1` search requests, for pages 1 to `N / 100 + 1`, which
is at most `ceil(N / 100) + 1`; the last page is empty exactly when 100 divides `N`. -/
theorem getReviewedPRs_serves (c : Client) (org : String) (period : TimePeriod)
    (hits : List (Option Issue)) (fuel : Nat)
    (hS : c.Serves (c.reviewedQuery org period) hits) (hf : hits.length / 100 + 1 ≤ fuel) :
    c.getReviewedPRs fuel org period =
        ⟨pageRequests (c.reviewedQuery org period) (hits.length / 100 + 1),
          .returned ((hits.length : Int), none)⟩ ∧
      (pageRequests (c.reviewedQuery org period) (hits.length / 100 + 1)).length
        = hits.length / 100 + 1 ∧
      hits.length / 100 + 1 ≤ (hits.length + 99) / 100 + 1 ∧
      (c.hitsOn (c.reviewedQuery org period) ((hits.length / 100 + 1 : Nat) : Int) = [] ↔
        hits.length % 100 = 0) := by
  have h1 := getReviewedPRs_pages c org period _ fuel (serves_firstShort hS) hf
  rw [serves_hitsUpTo hS] at h1
  refine ⟨h1, by simp [pageRequests], by omega, ?_⟩
  have e : ((hits.length / 100 + 1 : Nat) : Int) = ((hits.length / 100 : Nat) : Int) + 1 := by
    push_cast; rfl
  rw [e, (serves_page hS _).2, ← List.length_eq_zero, List.length_take, List.length_drop]
  omega

/-- On a remote that serves `N` hits, each with a repository name and a number, in pages of
100 and never fails a search request, `getMergedPRs` returns the records resolved from the
hits after exactly `N / 100 + 1` search requests, for pages 1 to `N / 100 + 1`. -/
theorem getMergedPRs_serves (c : Client) (org : String) (period : TimePeriod)
    (hits : List (Option Issue)) (fuel : Nat)
    (hS : c.Serves (c.mergedQuery org period) hits)
    (hwf : ∀ hit ∈ hits, issueArgs hit ≠ none) (hf : hits.length / 100 + 1 ≤ fuel) :
    (c.getMergedPRs fuel org period).outcome =
        .returned ((hits.filterMap (c.detail org)).map some, none) ∧
      (c.getMergedPRs fuel org period).calls.filter Call.isSearch =
        pageRequests (c.mergedQuery org period) (hits.length / 100 + 1) ∧
      ((c.getMergedPRs fuel org period).calls.filter Call.isSearch).length
        = hits.length / 100 + 1 := by
  have h1 := getMergedPRs_pages c org period _ fuel (serves_firstShort hS)
    (by rw [serves_hitsUpTo hS]; exact hwf) hf
  rw [serves_hitsUpTo hS] at h1
  exact ⟨h1.1, h1.2, by rw [h1.2]; simp [pageRequests]⟩


theorem mergedLoop_requests_le (c : Client) (org q : String) (n : Nat) :
    ∀ (p : Int) (acc : List (Option PullRequest)) (fuel : Nat),
      (c.hitsOn q (p + n)).length < 100 → c.searchOk q (p + n) = true →
      ((c.mergedLoop org q fuel p acc).calls.filter Call.isSearch).length ≤ n + 1 := by
  induction n with
  | zero =>
    intro p acc fuel hshort hok
    simp only [Nat.cast_zero, add_zero] at hshort hok
    cases fuel with
    | zero => simp [Client.mergedLoop]
    | succ f =>
      have hcalls := convertIssues_calls c org (c.hitsOn q p) acc
      have hnil : (c.convertIssues org (c.hitsOn q p) acc).calls.filter Call.isSearch = [] :=
        List.filter_eq_nil_iff.mpr (fun a ha => by simp [hcalls a ha])
      simp only [Client.mergedLoop, search_of_ok c q p hok]
      split
      · simp [List.filter_cons, Call.isSearch, hnil]
      · simp [List.filter_cons, Call.isSearch, hnil]
      · rw [if_pos hshort]
        simp [List.filter_cons, Call.isSearch, hnil]
  | succ n ih =>
    intro p acc fuel hshort hok
    have shift : p + ((n + 1 : Nat) : Int) = p + 1 + (n : Int) := by push_cast; ring
    rw [shift] at hshort hok
    cases fuel with
    | zero => simp [Client.mergedLoop]
    | succ f =>
      simp only [Client.mergedLoop]
      cases hs : c.client.searchIssues q p 100 with
      | error e => simp [List.filter_cons, Call.isSearch]
      | ok issues =>
        have hcalls := convertIssues_calls c org issues acc
        have hnil : (c.convertIssues org issues acc).calls.filter Call.isSearch = [] :=
          List.filter_eq_nil_iff.mpr (fun a ha => by simp [hcalls a ha])
        simp only []
        split
        · simp [List.filter_cons, Call.isSearch, hnil]
        · simp [List.filter_cons, Call.isSearch, hnil]
        · split
          · simp [List.filter_cons, Call.isSearch, hnil]
          · rename_i result _ _
            have := ih (p + 1) result f hshort hok
            simp only [List.filter_append, List.filter_cons, Call.isSearch, if_true, hnil,
              List.cons_append, List.nil_append, List.length_cons]
            omega

/-- On a remote that serves `N` hits in pages of 100 and never fails a search request,
`getMergedPRs` ends (by returning or by a panic) once the fuel suffices, after at most
`N / 100 + 1` search requests, whatever the hits carry. -/
theorem getMergedPRs_serves_le (c : Client) (org : String) (period : TimePeriod)
    (hits : List (Option Issue)) (fuel : Nat)
    (hS : c.Serves (c.mergedQuery org period) hits) :
    ((c.getMergedPRs fuel org period).calls.filter Call.isSearch).length
        ≤ hits.length / 100 + 1 ∧
      (hits.length / 100 + 1 ≤ fuel → (c.getMergedPRs fuel org period).outcome ≠ .running) := by
  have hk := serves_firstShort hS
  have e : (1 : Int) + ((hits.length / 100 : Nat) : Int) = ((hits.length / 100 + 1 : Nat) : Int) := by
    push_cast; ring
  have hshort : (c.hitsOn (c.mergedQuery org period) (1 + ((hits.length / 100 : Nat) : Int))).length
      < 100 := by rw [e]; exact hk.2.2.2
  have hok : c.searchOk (c.mergedQuery org period) (1 + ((hits.length / 100 : Nat) : Int)) = true := by
    rw [add_comm]; exact hk.2.1 _ (Nat.lt_succ_self _)
  exact ⟨mergedLoop_requests_le c org _ _ 1 [] fuel hshort hok,
    fun hf => mergedLoop_ends c org _ _ 1 [] fuel (by omega) hshort⟩

/-- Go's normalisation of a day past the end of the month: one month before March 31 is
"February 31", that is March 3 (March 2 in a leap year); one year before February 29 is
"February 29" of a common year, that is March 1. -/
theorem AddDate_overflow :
    ((Date 2023 3 31 10 0 0 0 UTC).AddDate 0 (-1) 0).date = (2023, 3, 3) ∧
    ((Date 2024 3 31 10 0 0 0 UTC).AddDate 0 (-1) 0).date = (2024, 3, 2) ∧
    ((Date 2024 3 29 10 0 0 0 UTC).AddDate 0 (-1) 0).date = (2024, 2, 29) ∧
    ((Date 2024 2 29 10 0 0 0 UTC).AddDate (-1) 0 0).date = (2023, 3, 1) := by
  decide


/-! ## Claims: the time windows -/

theorem le_of_sec {t u : Time} (h : t.sec ≤ u.sec) (hn : t.nsec = u.nsec) : t.le u := by
  simp only [Time.le, Time.Before, hn, lt_self_iff_false, decide_False, Bool.and_false,
    Bool.or_false, decide_eq_false_iff_not, not_lt]
  exact h

theorem date_month_range (t : Time) : 1 ≤ t.date.2.1 ∧ t.date.2.1 ≤ 12 :=
  ⟨(absDate_spec _).1, (absDate_spec _).2.1⟩

theorem date_day_range (t : Time) : 1 ≤ t.date.2.2 ∧ t.date.2.2 ≤ 31 :=
  ⟨(absDate_spec _).2.2.1, (absDate_spec _).2.2.2.1⟩

/-- Seven days back is the same clock reading seven days earlier, at the offset the location
has there. -/
theorem AddDate_week (now : Time) :
    ∃ s : Int, now.AddDate 0 0 (-7) =
      { sec := now.abs - 604800 - (now.loc.lookup s).offset, nsec := now.nsec,
        loc := now.loc } := by
  obtain ⟨s, hs⟩ := AddDate_eq now 0 0 (-7)
  refine ⟨s, ?_⟩
  rw [hs, add_zero, add_zero, daysOf_add_day, daysOf_date]
  congr 1
  omega

/-- One calendar month back is the same clock reading 28 to 31 days earlier. -/
theorem AddDate_month (now : Time) :
    ∃ (k s : Int), 28 ≤ k ∧ k ≤ 31 ∧
      now.AddDate 0 (-1) 0 =
        { sec := now.abs - 86400 * k - (now.loc.lookup s).offset, nsec := now.nsec,
          loc := now.loc } := by
  obtain ⟨h1, h12⟩ := date_month_range now
  obtain ⟨a, b⟩ := daysOf_month_back now.date.1 now.date.2.1 now.date.2.2 h1 h12
  have hd := daysOf_date now
  obtain ⟨s, hs⟩ := AddDate_eq now 0 (-1) 0
  refine ⟨daysOf now.date.1 now.date.2.1 now.date.2.2
      - daysOf now.date.1 (now.date.2.1 - 1) now.date.2.2, s, by omega, by omega, ?_⟩
  rw [hs, add_zero, add_zero, ← sub_eq_add_neg]
  congr 1
  omega

/-- One calendar year back is the same clock reading 365 or 366 days earlier. -/
theorem AddDate_year (now : Time) :
    ∃ (k s : Int), 365 ≤ k ∧ k ≤ 366 ∧
      now.AddDate (-1) 0 0 =
        { sec := now.abs - 86400 * k - (now.loc.lookup s).offset, nsec := now.nsec,
          loc := now.loc } := by
  obtain ⟨h1, h12⟩ := date_month_range now
  obtain ⟨a, b⟩ := daysOf_year_back now.date.1 now.date.2.1 now.date.2.2 h1 h12
  have hd := daysOf_date now
  obtain ⟨s, hs⟩ := AddDate_eq now (-1) 0 0
  refine ⟨daysOf now.date.1 now.date.2.1 now.date.2.2
      - daysOf (now.date.1 - 1) now.date.2.1 now.date.2.2, s, by omega, by omega, ?_⟩
  rw [hs, add_zero, add_zero, ← sub_eq_add_neg]
  congr 1
  omega

set_option maxRecDepth 1000000 in
/-- C6, as stated, fails: at `leapNow`, the instant at which the location puts its clock
forward by 8 days, the period "Last Week" starts at `leapNow.AddDate(0,0,-7)`, which is one
day after `leapNow`, so `Since <= Until` does not hold. -/
theorem C6_counterexample :
    (∃ month year : TimePeriod,
      GetTimePeriods leapNow =
        [{ Name := "Last Week", Since := leapNow.AddDate 0 0 (-7), Until := leapNow },
          month, year]) ∧
    leapNow.sec = 63846093600 ∧ (leapNow.AddDate 0 0 (-7)).sec = 63846093600 + 86400 ∧
    ¬ (leapNow.AddDate 0 0 (-7)).le leapNow := by
  exact ⟨⟨_, _, rfl⟩, by decide, by decide, by decide⟩

/-- C6, amended: for every instant `now` in a location whose offsets differ from one another
by at most 7 days (every fixed zone, and every zone of the zone database, with or without
daylight saving), `GetTimePeriods` yields exactly three periods, named "Last Week",
"Last Month" and "Last Year" in that order; each ends at `now` and starts at
`now.AddDate(0,0,-7)`, `now.AddDate(0,-1,0)` and `now.AddDate(-1,0,0)`; no period starts after
it ends, and the week starts no earlier than the month, the month no earlier than the year. -/
theorem C6_time_periods (now : Time) (hloc : now.loc.OffsetsWithin 604800) :
    ∃ week month year : TimePeriod,
      GetTimePeriods now = [week, month, year] ∧
      week.Name = "Last Week" ∧ month.Name = "Last Month" ∧ year.Name = "Last Year" ∧
      week.Until = now ∧ month.Until = now ∧ year.Until = now ∧
      week.Since = now.AddDate 0 0 (-7) ∧ month.Since = now.AddDate 0 (-1) 0 ∧
      year.Since = now.AddDate (-1) 0 0 ∧
      week.Since.le week.Until ∧ month.Since.le month.Until ∧ year.Since.le year.Until ∧
      month.Since.le week.Since ∧ year.Since.le month.Since := by
  obtain ⟨sw, hw⟩ := AddDate_week now
  obtain ⟨km, sm, hm1, hm2, hm⟩ := AddDate_month now
  obtain ⟨ky, sy, hy1, hy2, hy⟩ := AddDate_year now
  have o1 := hloc now.unixSec sw
  have o2 := hloc now.unixSec sm
  have o3 := hloc now.unixSec sy
  have o4 := hloc sw sm
  have o5 := hloc sm sy
  refine ⟨_, _, _, rfl, rfl, rfl, rfl, rfl, rfl, rfl, rfl, rfl, rfl, ?_, ?_, ?_, ?_, ?_⟩
  · simp only [hw]; exact le_of_sec (by simp only [Time.abs]; omega) rfl
  · simp only [hm]; exact le_of_sec (by simp only [Time.abs]; omega) rfl
  · simp only [hy]; exact le_of_sec (by simp only [Time.abs]; omega) rfl
  · simp only [hw, hm]; exact le_of_sec (by simp only [Time.abs]; omega) rfl
  · simp only [hm, hy]; exact le_of_sec (by simp only [Time.abs]; omega) rfl

theorem newYork_offsets : newYork.OffsetsWithin 604800 := by
  intro s s'
  simp only [newYork]
  split_ifs <;> norm_num

set_option maxRecDepth 1000000 in
/-- C6, amended, at 2024-03-15T10:00:00 in New York, five days after the clocks went forward:
the offsets of the location differ by an hour, the three periods are ordered as stated, and
"Last Week" starts at 2024-03-08T10:00:00 Eastern Standard Time (15:00:00Z), 7 days less an
hour before `now`. -/
theorem C6_time_periods_witness :
    newYorkNow.loc.OffsetsWithin 604800 ∧
    (∃ week month year : TimePeriod,
      GetTimePeriods newYorkNow = [week, month, year] ∧
      week.Since.le week.Until ∧ month.Since.le month.Until ∧ year.Since.le year.Until ∧
      month.Since.le week.Since ∧ year.Since.le month.Since) ∧
    newYorkNow.sec = 63846108000 ∧ (newYorkNow.AddDate 0 0 (-7)).sec = 63845506800 ∧
    (newYorkNow.AddDate 0 0 (-7)).abs - (newYorkNow.AddDate 0 0 (-7)).sec = -18000 := by
  obtain ⟨week, month, year, h⟩ := C6_time_periods newYorkNow newYork_offsets
  exact ⟨newYork_offsets, ⟨week, month, year, h.1, h.2.2.2.2.2.2.2.2.2.2⟩,
    by decide, by decide, by decide⟩


/-! ## Claims: the reducer -/

theorem wrapInt_add (a b : Int) : wrapInt (a + b) = wrapInt (wrapInt a + wrapInt b) := by
  simp only [wrapInt]
  omega

/-- C8: `getLinesChangedInPRs` never returns an error and returns the pair of sums (Go `int`
sums) of the additions and deletions of its input, a nil record or a nil field counting as
zero; the empty list gives (0, 0); a permutation of the input gives the same result; the result
on `xs ++ ys` is the componentwise (Go `int`) sum of the results on `xs` and on `ys`; and the
sums are the exact integer sums whenever those fit in an `int`. -/
theorem C8_reducer :
    (∀ prs, getLinesChangedInPRs prs =
      (intSum (prs.map PullRequest.GetAdditions), intSum (prs.map PullRequest.GetDeletions),
        none)) ∧
    (PullRequest.GetAdditions none = 0 ∧ PullRequest.GetDeletions none = 0 ∧
      (∀ d, PullRequest.GetAdditions (some { Additions := none, Deletions := d }) = 0) ∧
      (∀ a, PullRequest.GetDeletions (some { Additions := a, Deletions := none }) = 0) ∧
      (∀ a d n, PullRequest.GetAdditions (some { Additions := some n, Deletions := d }) = n ∧
        PullRequest.GetDeletions (some { Additions := a, Deletions := some n }) = n)) ∧
    getLinesChangedInPRs [] = (0, 0, none) ∧
    (∀ xs ys, List.Perm xs ys → getLinesChangedInPRs xs = getLinesChangedInPRs ys) ∧
    (∀ xs ys, getLinesChangedInPRs (xs ++ ys) =
      (wrapInt ((getLinesChangedInPRs xs).1 + (getLinesChangedInPRs ys).1),
        wrapInt ((getLinesChangedInPRs xs).2.1 + (getLinesChangedInPRs ys).2.1), none)) ∧
    (∀ prs,
      -9223372036854775808 ≤ (prs.map PullRequest.GetAdditions).sum →
      (prs.map PullRequest.GetAdditions).sum < 9223372036854775808 →
      -9223372036854775808 ≤ (prs.map PullRequest.GetDeletions).sum →
      (prs.map PullRequest.GetDeletions).sum < 9223372036854775808 →
      getLinesChangedInPRs prs =
        ((prs.map PullRequest.GetAdditions).sum, (prs.map PullRequest.GetDeletions).sum, none)) := by
  refine ⟨getLinesChangedInPRs_eq, ⟨rfl, rfl, fun _ => rfl, fun _ => rfl, fun _ _ _ => ⟨rfl, rfl⟩⟩,
    rfl, ?_, ?_, ?_⟩
  · intro xs ys h
    rw [getLinesChangedInPRs_eq, getLinesChangedInPRs_eq, intSum, intSum, intSum, intSum,
      (h.map _).sum_eq, (h.map _).sum_eq]
  · intro xs ys
    simp only [getLinesChangedInPRs_eq, intSum, List.map_append, List.sum_append]
    rw [wrapInt_add, wrapInt_add (List.sum (List.map PullRequest.GetDeletions xs))]
  · intro prs h1 h2 h3 h4
    rw [getLinesChangedInPRs_eq, intSum, intSum, wrapInt_of_range _ h1 h2,
      wrapInt_of_range _ h3 h4]


/-! ## Claims: the query strings -/

theorem mergedLoop_queries (c : Client) (org q : String) (fuel : Nat) :
    ∀ (p : Int) (acc : List (Option PullRequest)),
      ∀ call ∈ (c.mergedLoop org q fuel p acc).calls, call.isSearch = true →
        ∃ page, call = Call.searchIssues q page 100 := by
  induction fuel with
  | zero => intro p acc call h; simp [Client.mergedLoop] at h
  | succ f ih =>
    intro p acc call hmem hs
    have hinner := convertIssues_calls c org
    simp only [Client.mergedLoop] at hmem
    split at hmem
    · rw [List.mem_singleton] at hmem; exact ⟨p, hmem⟩
    · rename_i issues _
      have key : ∀ rest : List Call, (∀ x ∈ rest, x.isSearch = true →
          ∃ page, x = Call.searchIssues q page 100) →
          call ∈ Call.searchIssues q p 100 :: (c.convertIssues org issues acc).calls ++ rest →
          ∃ page, call = Call.searchIssues q page 100 := by
        intro rest hrest hm
        simp only [List.cons_append, List.mem_cons, List.mem_append] at hm
        rcases hm with rfl | hm | hm
        · exact ⟨p, rfl⟩
        · rw [hinner issues acc call hm] at hs; cases hs
        · exact hrest call hm hs
      split at hmem
      · exact key [] (by simp) (by simpa using hmem)
      · exact key [] (by simp) (by simpa using hmem)
      · split at hmem
        · exact key [] (by simp) (by simpa using hmem)
        · exact key _ (ih _ _) hmem

theorem reviewedLoop_queries (c : Client) (q : String) (fuel : Nat) :
    ∀ (p : Int) (count : Int),
      ∀ call ∈ (c.reviewedLoop q fuel p count).calls,
        ∃ page, call = Call.searchIssues q page 100 := by
  induction fuel with
  | zero => intro p count call h; simp [Client.reviewedLoop] at h
  | succ f ih =>
    intro p count call hmem
    simp only [Client.reviewedLoop] at hmem
    split at hmem
    · rw [List.mem_singleton] at hmem; exact ⟨p, hmem⟩
    · split at hmem
      · rw [List.mem_singleton] at hmem; exact ⟨p, hmem⟩
      · rcases List.mem_cons.mp hmem with rfl | hm
        · exact ⟨p, rfl⟩
        · exact ih _ _ call hm

theorem mergedLoop_first (c : Client) (org q : String) (fuel : Nat) (p : Int)
    (acc : List (Option PullRequest)) :
    (c.mergedLoop org q (fuel + 1) p acc).calls.head? = some (Call.searchIssues q p 100) := by
  simp only [Client.mergedLoop]
  split
  · rfl
  · split
    · rfl
    · rfl
    · split <;> rfl

theorem reviewedLoop_first (c : Client) (q : String) (fuel : Nat) (p : Int) (count : Int) :
    (c.reviewedLoop q (fuel + 1) p count).calls.head? = some (Call.searchIssues q p 100) := by
  simp only [Client.reviewedLoop]
  split
  · rfl
  · split <;> rfl

set_option maxRecDepth 1000000 in
/-- The query strings: for every user, org and period the query of `getMergedPRs` is
`author:<user> org:<org> is:pr is:merged merged:<since>..<until>` and the query of
`getReviewedPRs` is `org:<org> reviewed-by:<user> created:<since>..<until>`, where `<since>`
and `<until>` are `period.Since` and `period.Until` in the layout `2006-01-02`; the rendering
depends on the calendar date only and is `YYYY-MM-DD` for the years 0 to 9999; every search
request of either loop carries that same string with page size 100, the first one for page 1.
For user alice, org acme and the "Last Week" period generated at 2024-03-15T10:00:00Z the
date range is `2024-03-08..2024-03-15`. -/
theorem query_strings (c : Client) (org : String) (period : TimePeriod) (fuel : Nat) :
    c.mergedQuery org period =
        "author:" ++ c.user ++ " org:" ++ org ++ " is:pr is:merged merged:"
          ++ period.Since.Format "2006-01-02" ++ ".." ++ period.Until.Format "2006-01-02" ∧
      c.reviewedQuery org period =
        "org:" ++ org ++ " reviewed-by:" ++ c.user ++ " created:"
          ++ period.Since.Format "2006-01-02" ++ ".." ++ period.Until.Format "2006-01-02" ∧
      (∀ t u : Time, t.date = u.date → t.Format "2006-01-02" = u.Format "2006-01-02") ∧
      (∀ t : Time, 0 ≤ t.date.1 → t.date.1 ≤ 9999 →
        t.Format "2006-01-02" = isoDate t.date.1 t.date.2.1 t.date.2.2) ∧
      (∀ call ∈ (c.getMergedPRs fuel org period).calls, call.isSearch = true →
        ∃ page, call = Call.searchIssues (c.mergedQuery org period) page 100) ∧
      (∀ call ∈ (c.getReviewedPRs fuel org period).calls,
        ∃ page, call = Call.searchIssues (c.reviewedQuery org period) page 100) ∧
      ((c.getMergedPRs (fuel + 1) org period).calls.head? =
        some (Call.searchIssues (c.mergedQuery org period) 1 100)) ∧
      ((c.getReviewedPRs (fuel + 1) org period).calls.head? =
        some (Call.searchIssues (c.reviewedQuery org period) 1 100)) ∧
      (GetTimePeriods exampleNow).head? = some exampleWeek ∧
      (∀ remote : Remote,
        Client.mergedQuery { client := remote, user := "alice" } "acme" exampleWeek =
          "author:alice org:acme is:pr is:merged merged:2024-03-08..2024-03-15" ∧
        Client.reviewedQuery { client := remote, user := "alice" } "acme" exampleWeek =
          "org:acme reviewed-by:alice created:2024-03-08..2024-03-15") := by
  refine ⟨mergedQuery_eq c org period, reviewedQuery_eq c org period, Format_of_date, ?_,
    mergedLoop_queries c org _ fuel 1 [], reviewedLoop_queries c _ fuel 1 0,
    mergedLoop_first c org _ fuel 1 [], reviewedLoop_first c _ fuel 1 0, rfl, ?_⟩
  · intro t h0 h1
    obtain ⟨a, b⟩ := date_month_range t
    obtain ⟨d, e⟩ := date_day_range t
    rw [Format_layout]
    exact dateChars_iso _ _ _ ⟨h0, by omega⟩ ⟨by omega, by omega⟩ ⟨by omega, by omega⟩
  · intro remote
    have hs : exampleWeek.Since.Format "2006-01-02" = "2024-03-08" := by decide
    have hu : exampleWeek.Until.Format "2006-01-02" = "2024-03-15" := by decide
    simp only [mergedQuery_eq, reviewedQuery_eq, hs, hu]
    exact ⟨by decide, by decide⟩

set_option maxRecDepth 1000000 in
/-- C3 fails on `farPeriod`, the week from 10000-01-01T00:00:00Z to 10000-01-08T00:00:00Z: for
user alice and org acme the queries that `getMergedPRs` and `getReviewedPRs` send carry the
dates `10000-01-01..10000-01-08`, whose years have five digits, so the rendering of
`period.Since` (11 characters) is not the `YYYY-MM-DD` that the claim and the comment in the
code name. -/
theorem C3_failing_input :
    (idleClient "alice").mergedQuery "acme" farPeriod =
      "author:alice org:acme is:pr is:merged merged:10000-01-01..10000-01-08" ∧
    (idleClient "alice").reviewedQuery "acme" farPeriod =
      "org:acme reviewed-by:alice created:10000-01-01..10000-01-08" ∧
    ((idleClient "alice").getMergedPRs 1 "acme" farPeriod).calls =
      [Call.searchIssues "author:alice org:acme is:pr is:merged merged:10000-01-01..10000-01-08"
        1 100] ∧
    ((idleClient "alice").getReviewedPRs 1 "acme" farPeriod).calls =
      [Call.searchIssues "org:acme reviewed-by:alice created:10000-01-01..10000-01-08" 1 100] ∧
    farPeriod.Since.date = (10000, 1, 1) ∧
    farPeriod.Since.Format "2006-01-02" = "10000-01-01" ∧
    (farPeriod.Since.Format "2006-01-02").length = 11 ∧
    (isoDate 10000 1 1).length = 10 ∧
    farPeriod.Since.Format "2006-01-02" ≠ isoDate 10000 1 1 := by
  decide


set_option maxRecDepth 1000000 in
/-- C7, as stated, fails: two periods whose `Since` differ by an hour within one calendar day
give the same merged-PR and the same reviewed-PR query; a user or org with a space in it can
be cut in two ways (`author:a org:b org:c`); and a year past 9999 is rendered with five
digits. -/
theorem C7_counterexample :
    (exampleWeek.Since ≠ exampleWeekLater.Since ∧
      (idleClient "alice").mergedQuery "acme" exampleWeek =
        (idleClient "alice").mergedQuery "acme" exampleWeekLater ∧
      (idleClient "alice").reviewedQuery "acme" exampleWeek =
        (idleClient "alice").reviewedQuery "acme" exampleWeekLater) ∧
    ("a org:b" ≠ "a" ∧
      (idleClient "a org:b").mergedQuery "c" exampleWeek =
        (idleClient "a").mergedQuery "b org:c" exampleWeek) ∧
    (Date 10000 1 1 0 0 0 0 UTC).Format "2006-01-02" = "10000-01-01" := by
  exact ⟨⟨fun h => absurd (congrArg Time.sec h) (by decide), by decide, by decide⟩,
    by decide, by decide⟩

/-- C7, amended: for users and orgs without a space, the merged-PR query and the reviewed-PR
query each determine the user, the org and the calendar dates (year, month, day) of
`period.Since` and `period.Until`, and nothing more: two inputs give the same query exactly
when these agree. For years 0 to 9999 the date part is `YYYY-MM-DD..YYYY-MM-DD`, with a
four-digit year, a two-digit month and a two-digit day. -/
theorem C7_query_injective (c c' : Client) (org org' : String) (period period' : TimePeriod)
    (hu : ' ' ∉ c.user.data) (hu' : ' ' ∉ c'.user.data)
    (ho : ' ' ∉ org.data) (ho' : ' ' ∉ org'.data) :
    (c.mergedQuery org period = c'.mergedQuery org' period' ↔
      c.user = c'.user ∧ org = org' ∧ period.Since.date = period'.Since.date ∧
        period.Until.date = period'.Until.date) ∧
    (c.reviewedQuery org period = c'.reviewedQuery org' period' ↔
      c.user = c'.user ∧ org = org' ∧ period.Since.date = period'.Since.date ∧
        period.Until.date = period'.Until.date) ∧
    (0 ≤ period.Since.date.1 ∧ period.Since.date.1 ≤ 9999 ∧
      0 ≤ period.Until.date.1 ∧ period.Until.date.1 ≤ 9999 →
      c.mergedQuery org period =
        "author:" ++ c.user ++ " org:" ++ org ++ " is:pr is:merged merged:"
          ++ isoDate period.Since.date.1 period.Since.date.2.1 period.Since.date.2.2 ++ ".."
          ++ isoDate period.Until.date.1 period.Until.date.2.1 period.Until.date.2.2 ∧
      c.reviewedQuery org period =
        "org:" ++ org ++ " reviewed-by:" ++ c.user ++ " created:"
          ++ isoDate period.Since.date.1 period.Since.date.2.1 period.Since.date.2.2 ++ ".."
          ++ isoDate period.Until.date.1 period.Until.date.2.1 period.Until.date.2.2) := by
  have rng : ∀ t : Time, (0 ≤ t.date.2.1 ∧ t.date.2.1 < 100) ∧ (0 ≤ t.date.2.2 ∧ t.date.2.2 < 100) := by
    intro t
    obtain ⟨a, b⟩ := date_month_range t
    obtain ⟨d, e⟩ := date_day_range t
    exact ⟨⟨by omega, by omega⟩, ⟨by omega, by omega⟩⟩
  have dates : ∀ t t' : Time, (t.Format "2006-01-02").data = (t'.Format "2006-01-02").data →
      t.date = t'.date := fun t t' h =>
    Format_inj t t' (rng t).1 (rng t).2 (rng t').1 (rng t').2 (String.ext h)
  have iso : ∀ t : Time, 0 ≤ t.date.1 → t.date.1 ≤ 9999 →
      t.Format "2006-01-02" = isoDate t.date.1 t.date.2.1 t.date.2.2 := by
    intro t h0 h1
    rw [Format_layout]
    exact dateChars_iso _ _ _ ⟨h0, by omega⟩ ⟨(rng t).1.1, (rng t).1.2⟩ ⟨(rng t).2.1, (rng t).2.2⟩
  refine ⟨⟨fun h => ?_, fun h => ?_⟩, ⟨fun h => ?_, fun h => ?_⟩, fun h => ?_⟩
  · rw [mergedQuery_eq, mergedQuery_eq] at h
    have hd := congrArg String.data h
    rw [mergedQuery_data, mergedQuery_data] at hd
    obtain ⟨e1, e2, e3, e4⟩ := query_lists_inj _ _ _ _ _ _ _ _ _ _ _ hu hu' ho ho'
      (Format_no_dot _) (Format_no_dot _) hd
    exact ⟨String.ext e1, String.ext e2, dates _ _ e3, dates _ _ e4⟩
  · obtain ⟨e1, e2, e3, e4⟩ := h
    rw [mergedQuery_eq, mergedQuery_eq, e1, e2, Format_of_date _ _ e3, Format_of_date _ _ e4]
  · rw [reviewedQuery_eq, reviewedQuery_eq] at h
    have hd := congrArg String.data h
    rw [reviewedQuery_data, reviewedQuery_data] at hd
    obtain ⟨e1, e2, e3, e4⟩ := query_lists_inj _ _ _ _ _ _ _ _ _ _ _ ho ho' hu hu'
      (Format_no_dot _) (Format_no_dot _) hd
    exact ⟨String.ext e2, String.ext e1, dates _ _ e3, dates _ _ e4⟩
  · obtain ⟨e1, e2, e3, e4⟩ := h
    rw [reviewedQuery_eq, reviewedQuery_eq, e1, e2, Format_of_date _ _ e3,
      Format_of_date _ _ e4]
  · obtain ⟨a, b, d, e⟩ := h
    rw [mergedQuery_eq, reviewedQuery_eq, iso _ a b, iso _ d e]
    exact ⟨rfl, rfl⟩

set_option maxRecDepth 1000000 in
/-- C7 at alice and bob in org acme: neither name has a space, their merged-PR queries for
the same week differ, and the week's dates are rendered as `2024-03-08..2024-03-15`. -/
theorem C7_query_injective_witness :
    (' ' ∉ "alice".data ∧ ' ' ∉ "bob".data ∧ ' ' ∉ "acme".data) ∧
      (idleClient "alice").mergedQuery "acme" exampleWeek ≠
        (idleClient "bob").mergedQuery "acme" exampleWeek ∧
      (idleClient "alice").mergedQuery "acme" exampleWeek =
        "author:" ++ "alice" ++ " org:" ++ "acme" ++ " is:pr is:merged merged:"
          ++ isoDate 2024 3 8 ++ ".." ++ isoDate 2024 3 15 := by
  have h := C7_query_injective (idleClient "alice") (idleClient "bob") "acme" "acme"
    exampleWeek exampleWeek (by decide) (by decide) (by decide) (by decide)
  refine ⟨by decide, fun he => absurd (h.1.mp he).1 (by decide), ?_⟩
  exact (h.2.2 (by decide)).1


/-! ## Claims: counts, totals and pages -/

theorem resolved_add_failed (c : Client) (org : String) (hits : List (Option Issue))
    (hwf : ∀ hit ∈ hits, issueArgs hit ≠ none) :
    (hits.filterMap (c.detail org)).length + (hits.filter (c.detailFails org)).length
      = hits.length := by
  induction hits with
  | nil => rfl
  | cons hit rest ih =>
    have h1 := hwf hit (List.mem_cons_self _ _)
    have h2 := ih (fun h hm => hwf h (List.mem_cons_of_mem _ hm))
    obtain ⟨⟨name, number⟩, ha⟩ := Option.ne_none_iff_exists'.mp h1
    rw [List.filterMap_cons, List.filter_cons]
    simp only [Client.detail, Client.detailFails, ha]
    cases c.client.pullRequestsGet org name number <;> simp <;> omega

theorem resolved_all (c : Client) (org : String) (hits : List (Option Issue))
    (hD : ∀ hit ∈ hits, (c.detail org hit).isSome = true) :
    hits.filterMap (c.detail org) = hits.map fun hit => (c.detail org hit).getD ⟨none, none⟩ := by
  induction hits with
  | nil => rfl
  | cons hit rest ih =>
    have h1 := hD hit (List.mem_cons_self _ _)
    have h2 := ih (fun h hm => hD h (List.mem_cons_of_mem _ hm))
    obtain ⟨pr, hp⟩ := Option.isSome_iff_exists.mp h1
    rw [List.filterMap_cons, hp, h2]
    simp [hp]

theorem args_of_detail (c : Client) (org : String) (hit : Option Issue)
    (h : (c.detail org hit).isSome = true) : issueArgs hit ≠ none := by
  intro hn
  simp [Client.detail, hn] at h

theorem additions_getD (o : Option PullRequest) (h : o.isSome = true) :
    ((o.getD ⟨none, none⟩).Additions.getD 0 = PullRequest.GetAdditions o) ∧
      ((o.getD ⟨none, none⟩).Deletions.getD 0 = PullRequest.GetDeletions o) := by
  obtain ⟨pr, rfl⟩ := Option.isSome_iff_exists.mp h
  exact ⟨rfl, rfl⟩

set_option maxRecDepth 1000000 in
/-- C1, as stated, fails: on `lossyClient` the merged-PR search has n = 3 hits, of which
k = 1 detail fetch fails, every search request succeeds, and `GetStats` returns
`PRsMerged = 2`, not 3. -/
theorem C1_counterexample :
    lossyClient.FirstShortPage (lossyClient.mergedQuery "acme" exampleWeek) 1 ∧
    lossyClient.FirstShortPage (lossyClient.reviewedQuery "acme" exampleWeek) 1 ∧
    (lossyClient.hitsUpTo (lossyClient.mergedQuery "acme" exampleWeek) 1).length = 3 ∧
    ((lossyClient.hitsUpTo (lossyClient.mergedQuery "acme" exampleWeek) 1).filter
      (lossyClient.detailFails "acme")).length = 1 ∧
    (lossyClient.GetStats 1 "acme" exampleWeek).outcome =
      .returned
        (some
          { PRsMerged := 2, LinesAdded := 15, LinesDeleted := 3, PRsReviewed := 4,
            Period := exampleWeek, Organization := "acme" },
          none) := by
  refine ⟨by decide, by decide, by decide, by decide, ?_⟩
  rw [GetStats_returns lossyClient "acme" exampleWeek 1 1 1 (by decide) (by decide) (by decide)
    (by decide) (by decide)]
  simp only [Outcome.returned.injEq, Prod.mk.injEq, Option.some.injEq, Stats.mk.injEq,
    and_true]
  decide

/-- C1, amended: when every search request succeeds and both paginations reach a short page
(page `km` of the merged-PR search, page `kr` of the reviewed-PR search), the merged-PR search
has n hits over its pages, each carrying a repository name and a number, and exactly k of the
detail fetches fail, then `GetStats` returns Stats with `PRsMerged = n - k`, the number of
records resolved, and `LinesAdded` and `LinesDeleted` are the (Go `int`) sums of additions and
deletions over those n - k records. -/
theorem C1_merged_count (c : Client) (org : String) (period : TimePeriod) (km kr fuel : Nat)
    (hM : c.FirstShortPage (c.mergedQuery org period) km)
    (hR : c.FirstShortPage (c.reviewedQuery org period) kr)
    (hwf : ∀ hit ∈ c.hitsUpTo (c.mergedQuery org period) km, issueArgs hit ≠ none)
    (hfm : km ≤ fuel) (hfr : kr ≤ fuel) :
    ∃ stats : Stats,
      (c.GetStats fuel org period).outcome = .returned (some stats, none) ∧
      stats.PRsMerged =
        ((c.hitsUpTo (c.mergedQuery org period) km).length : Int)
          - (((c.hitsUpTo (c.mergedQuery org period) km).filter (c.detailFails org)).length : Int) ∧
      ((c.hitsUpTo (c.mergedQuery org period) km).filterMap (c.detail org)).length
          + ((c.hitsUpTo (c.mergedQuery org period) km).filter (c.detailFails org)).length
        = (c.hitsUpTo (c.mergedQuery org period) km).length ∧
      stats.LinesAdded = intSum
        (((c.hitsUpTo (c.mergedQuery org period) km).filterMap (c.detail org)).map
          fun pr => pr.Additions.getD 0) ∧
      stats.LinesDeleted = intSum
        (((c.hitsUpTo (c.mergedQuery org period) km).filterMap (c.detail org)).map
          fun pr => pr.Deletions.getD 0) := by
  have hlen := resolved_add_failed c org _ hwf
  refine ⟨_, GetStats_returns c org period km kr fuel hM hR hwf hfm hfr, ?_, hlen, rfl, rfl⟩
  simp only []
  omega

set_option maxRecDepth 1000000 in
/-- C1, amended, at `lossyClient`: 3 merged hits, 1 failed detail fetch, `PRsMerged = 2`, and
the totals 15 and 3 are those of the two records resolved. -/
theorem C1_merged_count_witness :
    ∃ stats : Stats,
      (lossyClient.GetStats 1 "acme" exampleWeek).outcome = .returned (some stats, none) ∧
      stats.PRsMerged = 3 - 1 ∧ stats.LinesAdded = 15 ∧ stats.LinesDeleted = 3 := by
  obtain ⟨stats, h1, h2, _, h4, h5⟩ := C1_merged_count lossyClient "acme" exampleWeek 1 1 1
    (by decide) (by decide) (by decide) (by decide) (by decide)
  refine ⟨stats, h1, ?_, ?_, ?_⟩
  · rw [h2]; decide
  · rw [h4]; decide
  · rw [h5]; decide


theorem endless_hits (hit' : Option Issue) (h : hit' ∈ List.replicate 100 (hit "api" 1)) :
    hit' = hit "api" 1 := (List.mem_replicate.mp h).2

theorem endless_mergedLoop (org q : String) (fuel : Nat) :
    ∀ (p : Int) (acc : List (Option PullRequest)),
      (endlessClient.mergedLoop org q fuel p acc).outcome = .running := by
  induction fuel with
  | zero => intro p acc; rfl
  | succ f ih =>
    intro p acc
    have hs : endlessClient.client.searchIssues q p 100 = .ok (List.replicate 100 (hit "api" 1)) :=
      rfl
    have hwf : ∀ h ∈ List.replicate 100 (hit "api" 1), issueArgs h ≠ none := by
      intro h hm
      rw [endless_hits h hm]
      decide
    simp only [Client.mergedLoop, hs, convertIssues_outcome endlessClient org _ acc hwf,
      List.length_replicate, lt_self_iff_false, if_false]
    exact ih _ _

/-- C2, as stated, fails: on `endlessClient` every search request and every detail fetch
succeeds, and `GetStats` never returns, because no page is short. -/
theorem C2_counterexample :
    (∀ (query : String) (page : Int), endlessClient.searchOk query page = true) ∧
    (∀ (query : String) (page : Int), ∀ h ∈ endlessClient.hitsOn query page,
      (endlessClient.detail "acme" h).isSome = true) ∧
    (∀ fuel : Nat, (endlessClient.GetStats fuel "acme" exampleWeek).outcome = .running) := by
  refine ⟨fun _ _ => rfl, ?_, ?_⟩
  · intro query page h hm
    rw [endless_hits h hm]
    rfl
  · intro fuel
    have := endless_mergedLoop "acme" (endlessClient.mergedQuery "acme" exampleWeek) fuel 1 []
    simp only [Client.GetStats, Client.getMergedPRs, this]

/-- C2, amended: when both paginations reach a short page (page `km` of the merged-PR search,
page `kr` of the reviewed-PR search) with every search request up to it succeeding, and the
detail fetch of every merged hit succeeds, `GetStats` returns, without error, Stats whose
`PRsMerged` is the number of merged-PR hits, whose `LinesAdded` and `LinesDeleted` are the
(Go `int`) sums of the additions and deletions of those pull requests, whose `PRsReviewed` is
the number of reviewed-PR hits, and whose `Period` and `Organization` are the arguments. -/
theorem C2_all_succeed (c : Client) (org : String) (period : TimePeriod) (km kr fuel : Nat)
    (hM : c.FirstShortPage (c.mergedQuery org period) km)
    (hR : c.FirstShortPage (c.reviewedQuery org period) kr)
    (hD : ∀ hit ∈ c.hitsUpTo (c.mergedQuery org period) km, (c.detail org hit).isSome = true)
    (hfm : km ≤ fuel) (hfr : kr ≤ fuel) :
    (c.GetStats fuel org period).outcome =
      .returned
        (some
          { PRsMerged := (c.hitsUpTo (c.mergedQuery org period) km).length,
            LinesAdded := intSum
              ((c.hitsUpTo (c.mergedQuery org period) km).map
                fun hit => PullRequest.GetAdditions (c.detail org hit)),
            LinesDeleted := intSum
              ((c.hitsUpTo (c.mergedQuery org period) km).map
                fun hit => PullRequest.GetDeletions (c.detail org hit)),
            PRsReviewed := (c.hitsUpTo (c.reviewedQuery org period) kr).length,
            Period := period, Organization := org },
          none) := by
  have hwf : ∀ hit ∈ c.hitsUpTo (c.mergedQuery org period) km, issueArgs hit ≠ none :=
    fun hit hm => args_of_detail c org hit (hD hit hm)
  rw [GetStats_returns c org period km kr fuel hM hR hwf hfm hfr, resolved_all c org _ hD]
  have ea : ∀ hit ∈ c.hitsUpTo (c.mergedQuery org period) km,
      ((c.detail org hit).getD ⟨none, none⟩).Additions.getD 0
        = PullRequest.GetAdditions (c.detail org hit) :=
    fun hit hm => (additions_getD _ (hD hit hm)).1
  have ed : ∀ hit ∈ c.hitsUpTo (c.mergedQuery org period) km,
      ((c.detail org hit).getD ⟨none, none⟩).Deletions.getD 0
        = PullRequest.GetDeletions (c.detail org hit) :=
    fun hit hm => (additions_getD _ (hD hit hm)).2
  simp only [List.length_map, List.map_map]
  have la : List.map ((fun pr : PullRequest => pr.Additions.getD 0) ∘
      fun hit => (c.detail org hit).getD ⟨none, none⟩) (c.hitsUpTo (c.mergedQuery org period) km)
      = List.map (fun hit => PullRequest.GetAdditions (c.detail org hit))
        (c.hitsUpTo (c.mergedQuery org period) km) :=
    List.map_congr_left fun hit hm => ea hit hm
  have ld : List.map ((fun pr : PullRequest => pr.Deletions.getD 0) ∘
      fun hit => (c.detail org hit).getD ⟨none, none⟩) (c.hitsUpTo (c.mergedQuery org period) km)
      = List.map (fun hit => PullRequest.GetDeletions (c.detail org hit))
        (c.hitsUpTo (c.mergedQuery org period) km) :=
    List.map_congr_left fun hit hm => ed hit hm
  rw [la, ld]

set_option maxRecDepth 1000000 in
/-- C2, amended, at `demoClient`: 2 merged hits with additions 10 and 5 and deletions 2 and 1,
and 4 reviewed hits, give `{PRsMerged: 2, LinesAdded: 15, LinesDeleted: 3, PRsReviewed: 4}`
for the period and organization asked. -/
theorem C2_all_succeed_witness :
    (demoClient.GetStats 1 "acme" exampleWeek).outcome =
      .returned
        (some
          { PRsMerged := 2, LinesAdded := 15, LinesDeleted := 3, PRsReviewed := 4,
            Period := exampleWeek, Organization := "acme" },
          none) := by
  rw [C2_all_succeed demoClient "acme" exampleWeek 1 1 1 (by decide) (by decide) (by decide)
    (by decide) (by decide)]
  simp only [Outcome.returned.injEq, Prod.mk.injEq, Option.some.injEq, Stats.mk.injEq,
    and_true]
  decide


set_option maxRecDepth 1000000 in
/-- C4, as stated, fails for `getMergedPRs`: on `lossyClient` every search request succeeds
and page 1, with 3 hits, is the first short page, yet the accumulated result has 2 items, not
the 3 of the page, since one detail fetch fails. -/
theorem C4_counterexample :
    lossyClient.FirstShortPage (lossyClient.mergedQuery "acme" exampleWeek) 1 ∧
    (lossyClient.hitsUpTo (lossyClient.mergedQuery "acme" exampleWeek) 1).length = 3 ∧
    (lossyClient.getMergedPRs 1 "acme" exampleWeek).outcome =
      .returned
        ([some { Additions := some 10, Deletions := some 2 },
          some { Additions := some 5, Deletions := some 1 }], none) := by
  decide

/-- C4, amended: when the search requests succeed and page `km` (resp. `kr`) is the first page
with fewer than 100 hits, `getMergedPRs` and `getReviewedPRs` send the search requests for
pages 1, 2, ..., `km` (resp. `kr`) in that order, each with page size 100, and no search
request after them; the result of `getMergedPRs` is the concatenation, in page order, of the
records resolved from each page's hits (hits carrying a repository name and a number; a hit
whose detail fetch fails contributes nothing), and the count of `getReviewedPRs` is the sum of
the lengths of those pages. -/
theorem C4_pagination (c : Client) (org : String) (period : TimePeriod) (km kr fuel : Nat)
    (hM : c.FirstShortPage (c.mergedQuery org period) km)
    (hR : c.FirstShortPage (c.reviewedQuery org period) kr)
    (hwf : ∀ hit ∈ c.hitsUpTo (c.mergedQuery org period) km, issueArgs hit ≠ none)
    (hfm : km ≤ fuel) (hfr : kr ≤ fuel) :
    (c.getMergedPRs fuel org period).calls.filter Call.isSearch =
        pageRequests (c.mergedQuery org period) km ∧
      (c.getMergedPRs fuel org period).outcome =
        .returned
          ((((List.range km).map fun (i : Nat) =>
            (c.hitsOn (c.mergedQuery org period) ((i : Int) + 1)).filterMap
              (c.detail org)).flatten).map some, none) ∧
      c.getReviewedPRs fuel org period =
        ⟨pageRequests (c.reviewedQuery org period) kr,
          .returned
            ((((List.range kr).map fun (i : Nat) =>
              (c.hitsOn (c.reviewedQuery org period) ((i : Int) + 1)).length).sum : Nat),
              none)⟩ := by
  obtain ⟨h1, h2⟩ := getMergedPRs_pages c org period km fuel hM hwf hfm
  refine ⟨h2, ?_, ?_⟩
  · rw [h1, Client.hitsUpTo, List.filterMap_flatten, List.map_map]
    rfl
  · rw [getReviewedPRs_pages c org period kr fuel hR hfr, Client.hitsUpTo, List.length_flatten,
      List.map_map]
    rfl

set_option maxRecDepth 1000000 in
/-- C4, amended, at `hundredClient`: 100 hits on page 1 and none on page 2 give a result of
100 items (a count of 100) with exactly the two requests for pages 1 and 2. -/
theorem C4_pagination_witness :
    (hundredClient.getMergedPRs 2 "acme" exampleWeek).calls.filter Call.isSearch =
        [Call.searchIssues (hundredClient.mergedQuery "acme" exampleWeek) 1 100,
          Call.searchIssues (hundredClient.mergedQuery "acme" exampleWeek) 2 100] ∧
      (∃ result, (hundredClient.getMergedPRs 2 "acme" exampleWeek).outcome
          = .returned (result, none) ∧ result.length = 100) ∧
      hundredClient.getReviewedPRs 2 "acme" exampleWeek =
        ⟨[Call.searchIssues (hundredClient.reviewedQuery "acme" exampleWeek) 1 100,
          Call.searchIssues (hundredClient.reviewedQuery "acme" exampleWeek) 2 100],
          .returned (100, none)⟩ := by
  obtain ⟨h1, h2, h3⟩ := C4_pagination hundredClient "acme" exampleWeek 2 2 2
    (by decide) (by decide) (by decide) (by decide) (by decide)
  refine ⟨?_, ⟨_, h2, ?_⟩, ?_⟩
  · rw [h1]; decide
  · decide
  · rw [h3]; decide


/-! ## Claims: errors, pages served from a list, nil fields -/

theorem GetStats_of_panic (c : Client) (fuel : Nat) (org : String) (period : TimePeriod)
    (h : (c.getMergedPRs fuel org period).outcome = .panicked) :
    c.GetStats fuel org period = ⟨(c.getMergedPRs fuel org period).calls, .panicked⟩ := by
  simp only [Client.GetStats, h]

theorem GetStats_of_merged_fail (c : Client) (fuel : Nat) (org : String) (period : TimePeriod)
    (prs : List (Option PullRequest)) (e : Error)
    (h : (c.getMergedPRs fuel org period).outcome = .returned (prs, some e)) :
    c.GetStats fuel org period =
      ⟨(c.getMergedPRs fuel org period).calls,
        .returned (none, some (Errorf "error getting merged PRs: %w" e))⟩ := by
  simp only [Client.GetStats, h]

theorem GetStats_of_reviewed_fail (c : Client) (fuel : Nat) (org : String) (period : TimePeriod)
    (prs : List (Option PullRequest)) (count : Int) (e : Error)
    (h1 : (c.getMergedPRs fuel org period).outcome = .returned (prs, none))
    (h2 : (c.getReviewedPRs fuel org period).outcome = .returned (count, some e)) :
    c.GetStats fuel org period =
      ⟨(c.getMergedPRs fuel org period).calls ++ (c.getReviewedPRs fuel org period).calls,
        .returned (none, some (Errorf "error getting reviewed PRs: %w" e))⟩ := by
  simp only [Client.GetStats, h1, getLinesChangedInPRs_eq, h2]

theorem GetStats_search_calls (c : Client) (fuel : Nat) (org : String) (period : TimePeriod)
    (prs : List (Option PullRequest))
    (h1 : (c.getMergedPRs fuel org period).outcome = .returned (prs, none)) :
    (c.GetStats fuel org period).calls =
      (c.getMergedPRs fuel org period).calls ++ (c.getReviewedPRs fuel org period).calls := by
  simp only [Client.GetStats, h1, getLinesChangedInPRs_eq]
  split <;> rfl

theorem pageRequests_filter (q : String) (k : Nat) :
    (pageRequests q k).filter Call.isSearch = pageRequests q k := by
  rw [List.filter_eq_self]
  intro a ha
  simp only [pageRequests, List.mem_map] at ha
  obtain ⟨i, _, rfl⟩ := ha
  rfl

/-- C5: let page `km` end the pagination of the merged-PR search and, when `getMergedPRs`
returns without error, page `kr` that of the reviewed-PR search (an end page is the first
page whose request fails or has fewer than 100 hits). With fuel for these pages `GetStats`
ends its run, and it returns an error exactly when a search request it sent failed; with an
error it returns no Stats (nil), without one it returns Stats. In terms of the remote: a hit
without a repository name or number on the merged pages makes the run panic (no error is
returned); otherwise `GetStats` returns an error exactly when the request for the merged end
page fails, or that one succeeds and the request for the reviewed end page fails; in the
first case the result is `(nil, "error getting merged PRs: %w")` after the search requests
for merged pages 1 to `km`, in the second `(nil, "error getting reviewed PRs: %w")` after
those and the requests for reviewed pages 1 to `kr`; and when both end pages succeed
`GetStats` returns Stats and no error, whichever detail fetches fail: `PRsMerged` is the
number of merged hits less the number of failed detail fetches. -/
theorem C5_error_iff_search_fails (c : Client) (org : String) (period : TimePeriod)
    (km kr fuel : Nat)
    (hM : c.EndPage (c.mergedQuery org period) km)
    (hR : c.searchOk (c.mergedQuery org period) km = true →
      (∀ hit ∈ c.hitsUpTo (c.mergedQuery org period) km, issueArgs hit ≠ none) →
      c.EndPage (c.reviewedQuery org period) kr)
    (hfm : km ≤ fuel) (hfr : kr ≤ fuel) :
    (c.GetStats fuel org period).outcome ≠ .running ∧
    ((c.GetStats fuel org period).returnsError ↔
      ∃ call ∈ (c.GetStats fuel org period).calls, c.searchFails call = true) ∧
    (∀ stats err, (c.GetStats fuel org period).outcome = .returned (stats, some err) →
      stats = none) ∧
    (∀ stats, (c.GetStats fuel org period).outcome = .returned (stats, none) →
      stats ≠ none) ∧
    ((∃ hit ∈ c.hitsUpTo (c.mergedQuery org period) km, issueArgs hit = none) →
      (c.GetStats fuel org period).outcome = .panicked) ∧
    ((∀ hit ∈ c.hitsUpTo (c.mergedQuery org period) km, issueArgs hit ≠ none) →
      ((c.GetStats fuel org period).returnsError ↔
        (c.searchOk (c.mergedQuery org period) km = false ∨
          (c.searchOk (c.mergedQuery org period) km = true ∧
            c.searchOk (c.reviewedQuery org period) kr = false))) ∧
      (∀ e, c.client.searchIssues (c.mergedQuery org period) km 100 = .error e →
        (c.GetStats fuel org period).outcome =
          .returned (none, some (Errorf "error getting merged PRs: %w" e)) ∧
        (c.GetStats fuel org period).calls.filter Call.isSearch =
          pageRequests (c.mergedQuery org period) km) ∧
      (c.searchOk (c.mergedQuery org period) km = true →
        ∀ e, c.client.searchIssues (c.reviewedQuery org period) kr 100 = .error e →
          (c.GetStats fuel org period).outcome =
            .returned (none, some (Errorf "error getting reviewed PRs: %w" e)) ∧
          (c.GetStats fuel org period).calls.filter Call.isSearch =
            pageRequests (c.mergedQuery org period) km ++
              pageRequests (c.reviewedQuery org period) kr) ∧
      (c.searchOk (c.mergedQuery org period) km = true →
        c.searchOk (c.reviewedQuery org period) kr = true →
          ∃ stats : Stats,
            (c.GetStats fuel org period).outcome = .returned (some stats, none) ∧
            stats.PRsMerged =
              ((c.hitsUpTo (c.mergedQuery org period) km).length : Int) -
                (((c.hitsUpTo (c.mergedQuery org period) km).filter
                  (c.detailFails org)).length : Int) ∧
            (c.GetStats fuel org period).calls.filter Call.isSearch =
              pageRequests (c.mergedQuery org period) km ++
                pageRequests (c.reviewedQuery org period) kr)) := by
  -- the run on well-formed hits
  have mergedFail : (∀ hit ∈ c.hitsUpTo (c.mergedQuery org period) km, issueArgs hit ≠ none) →
      ∀ e, c.client.searchIssues (c.mergedQuery org period) km 100 = .error e →
        (c.GetStats fuel org period).outcome =
          .returned (none, some (Errorf "error getting merged PRs: %w" e)) ∧
        (c.GetStats fuel org period).calls.filter Call.isSearch =
          pageRequests (c.mergedQuery org period) km := by
    intro hwf e he
    obtain ⟨h1, h2⟩ := getMergedPRs_fail c org period km fuel e hM hwf he hfm
    rw [GetStats_of_merged_fail c fuel org period [] e h1]
    exact ⟨rfl, h2⟩
  have reviewedFail :
      (∀ hit ∈ c.hitsUpTo (c.mergedQuery org period) km, issueArgs hit ≠ none) →
      c.searchOk (c.mergedQuery org period) km = true →
        ∀ e, c.client.searchIssues (c.reviewedQuery org period) kr 100 = .error e →
          (c.GetStats fuel org period).outcome =
            .returned (none, some (Errorf "error getting reviewed PRs: %w" e)) ∧
          (c.GetStats fuel org period).calls.filter Call.isSearch =
            pageRequests (c.mergedQuery org period) km ++
              pageRequests (c.reviewedQuery org period) kr := by
    intro hwf hok e he
    obtain ⟨h1, h2⟩ := getMergedPRs_pages c org period km fuel (hM.firstShort hok) hwf hfm
    have h3 := getReviewedPRs_fail c org period kr fuel e (hR hok hwf) he hfr
    rw [GetStats_of_reviewed_fail c fuel org period _ 0 e h1 (by rw [h3])]
    refine ⟨rfl, ?_⟩
    simp only [List.filter_append, h2, h3, pageRequests_filter]
  have bothOk :
      (∀ hit ∈ c.hitsUpTo (c.mergedQuery org period) km, issueArgs hit ≠ none) →
      c.searchOk (c.mergedQuery org period) km = true →
        c.searchOk (c.reviewedQuery org period) kr = true →
          ∃ stats : Stats,
            (c.GetStats fuel org period).outcome = .returned (some stats, none) ∧
            stats.PRsMerged =
              ((c.hitsUpTo (c.mergedQuery org period) km).length : Int) -
                (((c.hitsUpTo (c.mergedQuery org period) km).filter
                  (c.detailFails org)).length : Int) ∧
            (c.GetStats fuel org period).calls.filter Call.isSearch =
              pageRequests (c.mergedQuery org period) km ++
                pageRequests (c.reviewedQuery org period) kr := by
    intro hwf hok hok2
    have hRk := (hR hok hwf).firstShort hok2
    obtain ⟨h1, h2⟩ := getMergedPRs_pages c org period km fuel (hM.firstShort hok) hwf hfm
    have h3 := getReviewedPRs_pages c org period kr fuel hRk hfr
    have hlen := resolved_add_failed c org _ hwf
    refine ⟨_, GetStats_returns c org period km kr fuel (hM.firstShort hok) hRk hwf hfm hfr,
      ?_, ?_⟩
    · simp only []
      omega
    · rw [GetStats_search_calls c fuel org period _ h1]
      simp only [List.filter_append, h2, h3, pageRequests_filter]
  have panics : (∃ hit ∈ c.hitsUpTo (c.mergedQuery org period) km, issueArgs hit = none) →
      (c.GetStats fuel org period).outcome = .panicked := by
    intro hnil
    rw [GetStats_of_panic c fuel org period (getMergedPRs_panics c org period km fuel hM hnil hfm)]
  have static : (∀ hit ∈ c.hitsUpTo (c.mergedQuery org period) km, issueArgs hit ≠ none) →
      ((c.GetStats fuel org period).returnsError ↔
        (c.searchOk (c.mergedQuery org period) km = false ∨
          (c.searchOk (c.mergedQuery org period) km = true ∧
            c.searchOk (c.reviewedQuery org period) kr = false))) := by
    intro hwf
    cases hsm : c.searchOk (c.mergedQuery org period) km with
    | false =>
      obtain ⟨e, he⟩ := search_of_fail c _ _ hsm
      exact ⟨fun _ => Or.inl rfl, fun _ => ⟨_, _, (mergedFail hwf e he).1⟩⟩
    | true =>
      cases hsr : c.searchOk (c.reviewedQuery org period) kr with
      | false =>
        obtain ⟨e, he⟩ := search_of_fail c _ _ hsr
        exact ⟨fun _ => Or.inr ⟨rfl, rfl⟩, fun _ => ⟨_, _, (reviewedFail hwf hsm e he).1⟩⟩
      | true =>
        obtain ⟨stats, h1, _⟩ := bothOk hwf hsm hsr
        constructor
        · rintro ⟨v, e, h⟩
          rw [h1] at h
          cases h
        · rintro (h | ⟨_, h⟩) <;> cases h
  have ends : (c.GetStats fuel org period).outcome ≠ .running := by
    by_cases hnil : ∃ hit ∈ c.hitsUpTo (c.mergedQuery org period) km, issueArgs hit = none
    · rw [panics hnil]; simp
    · have hwf : ∀ hit ∈ c.hitsUpTo (c.mergedQuery org period) km, issueArgs hit ≠ none :=
        fun hit hm hn => hnil ⟨hit, hm, hn⟩
      cases hsm : c.searchOk (c.mergedQuery org period) km with
      | false =>
        obtain ⟨e, he⟩ := search_of_fail c _ _ hsm
        rw [(mergedFail hwf e he).1]; simp
      | true =>
        cases hsr : c.searchOk (c.reviewedQuery org period) kr with
        | false =>
          obtain ⟨e, he⟩ := search_of_fail c _ _ hsr
          rw [(reviewedFail hwf hsm e he).1]; simp
        | true =>
          obtain ⟨stats, h1, _⟩ := bothOk hwf hsm hsr
          rw [h1]; simp
  exact ⟨ends, GetStats_error_iff c fuel org period,
    fun stats err => GetStats_error_nil c fuel org period stats err,
    fun stats => GetStats_ok_stats c fuel org period stats,
    panics,
    fun hwf => ⟨static hwf, mergedFail hwf, reviewedFail hwf, bothOk hwf⟩⟩

set_option maxRecDepth 1000000 in
/-- C5 at three remotes. On `reviewFailClient` the merged-PR search succeeds with 2 hits and
the first request of the reviewed-PR search fails with 503: `GetStats` sends the two search
requests and returns no Stats and the error "error getting reviewed PRs: 503 Service
Unavailable". On `brokenClient` the merged-PR search fails on page 2 after a full page 1
whose detail fetches all fail: `GetStats` returns no Stats and the error "error getting
merged PRs: 502 Bad Gateway", and sends no request of the reviewed-PR search. On
`lossyClient` one detail fetch of three fails and no search request does: `GetStats` returns
Stats with `PRsMerged = 2` and no error. -/
theorem C5_error_iff_search_fails_witness :
    (reviewFailClient.EndPage (reviewFailClient.mergedQuery "acme" exampleWeek) 1 ∧
      reviewFailClient.EndPage (reviewFailClient.reviewedQuery "acme" exampleWeek) 1 ∧
      reviewFailClient.searchOk (reviewFailClient.mergedQuery "acme" exampleWeek) 1 = true ∧
      reviewFailClient.searchOk (reviewFailClient.reviewedQuery "acme" exampleWeek) 1 = false ∧
      (reviewFailClient.GetStats 1 "acme" exampleWeek).returnsError ∧
      (reviewFailClient.GetStats 1 "acme" exampleWeek).outcome =
        .returned (none, some (.wrapped "error getting reviewed PRs: 503 Service Unavailable"
          (.remote "503 Service Unavailable"))) ∧
      (reviewFailClient.GetStats 1 "acme" exampleWeek).calls.filter Call.isSearch =
        [Call.searchIssues "author:alice org:acme is:pr is:merged merged:2024-03-08..2024-03-15"
            1 100,
          Call.searchIssues "org:acme reviewed-by:alice created:2024-03-08..2024-03-15" 1 100]) ∧
    (brokenClient.EndPage (brokenClient.mergedQuery "acme" exampleWeek) 2 ∧
      brokenClient.searchOk (brokenClient.mergedQuery "acme" exampleWeek) 2 = false ∧
      ((brokenClient.hitsUpTo (brokenClient.mergedQuery "acme" exampleWeek) 2).filter
        (brokenClient.detailFails "acme")).length = 100 ∧
      (brokenClient.GetStats 2 "acme" exampleWeek).returnsError ∧
      (brokenClient.GetStats 2 "acme" exampleWeek).outcome =
        .returned (none, some (.wrapped "error getting merged PRs: 502 Bad Gateway"
          (.remote "502 Bad Gateway"))) ∧
      (brokenClient.GetStats 2 "acme" exampleWeek).calls.filter Call.isSearch =
        [Call.searchIssues "author:alice org:acme is:pr is:merged merged:2024-03-08..2024-03-15"
            1 100,
          Call.searchIssues "author:alice org:acme is:pr is:merged merged:2024-03-08..2024-03-15"
            2 100]) ∧
    (lossyClient.EndPage (lossyClient.mergedQuery "acme" exampleWeek) 1 ∧
      lossyClient.EndPage (lossyClient.reviewedQuery "acme" exampleWeek) 1 ∧
      ((lossyClient.hitsUpTo (lossyClient.mergedQuery "acme" exampleWeek) 1).filter
        (lossyClient.detailFails "acme")).length = 1 ∧
      ¬ (lossyClient.GetStats 1 "acme" exampleWeek).returnsError ∧
      ∃ stats : Stats,
        (lossyClient.GetStats 1 "acme" exampleWeek).outcome = .returned (some stats, none) ∧
        stats.PRsMerged = 2) := by
  have hE1 : Errorf "error getting reviewed PRs: %w" (.remote "503 Service Unavailable") =
      .wrapped "error getting reviewed PRs: 503 Service Unavailable"
        (.remote "503 Service Unavailable") := by decide
  have hE2 : Errorf "error getting merged PRs: %w" (.remote "502 Bad Gateway") =
      .wrapped "error getting merged PRs: 502 Bad Gateway" (.remote "502 Bad Gateway") := by
    decide
  have hM1 : reviewFailClient.EndPage (reviewFailClient.mergedQuery "acme" exampleWeek) 1 := by
    decide
  have hR1 : reviewFailClient.EndPage (reviewFailClient.reviewedQuery "acme" exampleWeek) 1 := by
    decide
  have hM2 : brokenClient.EndPage (brokenClient.mergedQuery "acme" exampleWeek) 2 := by decide
  have hM3 : lossyClient.EndPage (lossyClient.mergedQuery "acme" exampleWeek) 1 := by decide
  have hR3 : lossyClient.EndPage (lossyClient.reviewedQuery "acme" exampleWeek) 1 := by decide
  obtain ⟨_, _, _, _, _, h1⟩ :=
    C5_error_iff_search_fails reviewFailClient "acme" exampleWeek 1 1 1 hM1 (fun _ _ => hR1)
      (by decide) (by decide)
  obtain ⟨s1, _, r1, _⟩ := h1 (by decide)
  obtain ⟨_, _, _, _, _, h2⟩ :=
    C5_error_iff_search_fails brokenClient "acme" exampleWeek 2 0 2 hM2
      (fun h => absurd h (by decide)) (by decide) (by decide)
  obtain ⟨s2, m2, _, _⟩ := h2 (by decide)
  obtain ⟨_, _, _, _, _, h3⟩ :=
    C5_error_iff_search_fails lossyClient "acme" exampleWeek 1 1 1 hM3 (fun _ _ => hR3)
      (by decide) (by decide)
  obtain ⟨s3, _, _, o3⟩ := h3 (by decide)
  obtain ⟨o1, c1⟩ := r1 (by decide) (.remote "503 Service Unavailable") (by rfl)
  obtain ⟨o2, c2⟩ := m2 (.remote "502 Bad Gateway") (by rfl)
  obtain ⟨stats, o4, p4, _⟩ := o3 (by decide) (by decide)
  refine ⟨⟨hM1, hR1, by decide, by decide, s1.mpr (Or.inr ⟨by decide, by decide⟩),
      hE1 ▸ o1, c1.trans (by decide)⟩,
    ⟨hM2, by decide, by decide, s2.mpr (Or.inl (by decide)), hE2 ▸ o2, c2.trans (by decide)⟩,
    ⟨hM3, hR3, by decide, fun h => ?_, stats, o4, p4.trans (by decide)⟩⟩
  rcases s3.mp h with h | ⟨_, h⟩
  · exact absurd h (by decide)
  · exact absurd h (by decide)

set_option maxRecDepth 1000000 in
theorem bare_first_page (query : String) :
    bareClient.client.searchIssues query 1 100 = .ok bareHits := by
  have h : (bareHits.drop (100 * ((1 : Int) - 1).toNat)).take 100 = bareHits := by decide
  exact congrArg Except.ok h

set_option maxRecDepth 1000000 in
/-- C9 fails on `bareClient`: the remote serves the 100 hits of `bareHits` in pages of 100 and
never fails, and `getMergedPRs`, whatever the fuel, sends the one search request for page 1
and panics on the first hit, which has no repository record; the claim has it send
floor(100/100) + 1 = 2 requests and stop at the empty page 2. -/
theorem C9_failing_input :
    bareClient.Serves (bareClient.mergedQuery "acme" exampleWeek) bareHits ∧
    bareHits.length = 100 ∧
    (∀ fuel : Nat, bareClient.getMergedPRs (fuel + 1) "acme" exampleWeek =
      ⟨[Call.searchIssues (bareClient.mergedQuery "acme" exampleWeek) 1 100], .panicked⟩) := by
  refine ⟨fun i => ?_, by decide, fun fuel => ?_⟩
  · simp [bareClient, bareRemote]
  · simp only [Client.getMergedPRs, Client.mergedLoop, bare_first_page]
    rfl

/-- C10 fails: a hit without a repository record, with a repository record without a name,
or without a number (and a nil hit) makes the inner loop of `getMergedPRs` panic on the
dereference, before any detail fetch is sent for it: the hit is neither resolved nor dropped.
So `getMergedPRs` panics on the first page of `bareClient`. -/
theorem C10_nil_dereference :
    (∀ (c : Client) (org : String) (rest : List (Option Issue)) (acc : List (Option PullRequest)),
      c.convertIssues org (some { Number := some 1, Repository := none } :: rest) acc
        = ⟨[], .panicked⟩ ∧
      c.convertIssues org
          (some { Number := some 1, Repository := some { Name := none } } :: rest) acc
        = ⟨[], .panicked⟩ ∧
      c.convertIssues org
          (some { Number := none, Repository := some { Name := some "api" } } :: rest) acc
        = ⟨[], .panicked⟩ ∧
      c.convertIssues org (none :: rest) acc = ⟨[], .panicked⟩) ∧
    (∀ fuel : Nat,
      (bareClient.getMergedPRs (fuel + 1) "acme" exampleWeek).outcome = .panicked) := by
  refine ⟨fun c org rest acc => ⟨rfl, rfl, rfl, rfl⟩, fun fuel => ?_⟩
  simp only [Client.getMergedPRs, Client.mergedLoop, bare_first_page]
  rfl

end GithubStats

